import Mathlib

/-!
# Verification of `payload_dumper`'s streaming zipfile reader

A shallow embedding of `src/payload_dumper/fix_zipfile.py` (a vendored,
stripped-down variant of CPython's `zipfile`) into Lean 4, together with
theorems settling the frozen claims about it.

Conventions of the embedding:
* Python `bytes` values are `List Nat` (each element a byte value `< 256`).
* Python `str` values are `List Nat` (each element a Unicode code point).
* Python `int` is `Int` where subtraction/negative values can occur,
  `Nat` where the source only ever holds non-negative values.
* Python exceptions become an error type `ZErr`; a raised exception is an
  `Except.error`.  Methods that mutate `self` return the updated state
  *also on the error path* (Python mutations performed before a `raise`
  persist on the object), i.e. they return `σ × Except ZErr α`.
* File objects are byte lists with an explicit position; `seek` to a
  negative position fails with `OSError` (the semantics of a regular
  file object, which is what the archive is backed by).
-/

namespace FixZipfile

/-- Little-endian value of a byte list (first byte is least significant). -/
def leVal : List Nat → Nat
  | [] => 0
  | b :: t => b + 256 * leVal t

/-- `bs[pos : pos+n]` — the at-most-`n` bytes of `bs` starting at `pos`. -/
def getBytes (bs : List Nat) (pos n : Nat) : List Nat :=
  (bs.drop pos).take n

/-- Little-endian field of width `n` at offset `off` inside record `r`. -/
def fld (r : List Nat) (off n : Nat) : Nat :=
  leVal (getBytes r off n)

/-- Little-endian encoding of `v` in `n` bytes (used to build concrete inputs). -/
def leBytes : Nat → Nat → List Nat
  | 0, _ => []
  | n + 1, v => (v % 256) :: leBytes n (v / 256)

/-- One bit-step of the CRC-32 feedback shift register (polynomial `0xEDB88320`). -/
def crcStep (c : Nat) : Nat :=
  if c % 2 = 1 then (c / 2) ^^^ 0xEDB88320 else c / 2

/-- Eight CRC-32 bit-steps. -/
def crcStep8 (c : Nat) : Nat :=
  crcStep (crcStep (crcStep (crcStep (crcStep (crcStep (crcStep (crcStep c)))))))

/-- The raw (pre/post-conditioning-free) CRC-32 fold over a byte list. -/
def crcRaw (c : Nat) (data : List Nat) : Nat :=
  data.foldl (fun c b => crcStep8 (c ^^^ (b % 256))) c

/-- `zlib.crc32(data, crc)` — running CRC-32 with initial value `crc`.
`crc32 [] 0 = 0`, matching `zlib.crc32(b"")`. -/
def crc32 (data : List Nat) (crc : Nat := 0) : Nat :=
  crcRaw (crc ^^^ 0xFFFFFFFF) data ^^^ 0xFFFFFFFF

/-- Strict UTF-8 decoding of a byte list into code points (`none` on invalid
input).  Models Python's `bytes.decode("utf-8")`: rejects stray continuation
bytes, truncated sequences, overlong encodings, surrogates and values beyond
`U+10FFFF`. -/
def utf8Decode : List Nat → Option (List Nat)
  | [] => some []
  | b :: t =>
    if b < 0x80 then
      (utf8Decode t).map (b :: ·)
    else if b < 0xC0 then
      none
    else if b < 0xE0 then
      match t with
      | c1 :: t' =>
        if 0x80 ≤ c1 ∧ c1 < 0xC0 then
          let cp := (b - 0xC0) * 0x40 + (c1 - 0x80)
          if cp < 0x80 then none else (utf8Decode t').map (cp :: ·)
        else none
      | _ => none
    else if b < 0xF0 then
      match t with
      | c1 :: c2 :: t' =>
        if (0x80 ≤ c1 ∧ c1 < 0xC0) ∧ (0x80 ≤ c2 ∧ c2 < 0xC0) then
          let cp := (b - 0xE0) * 0x1000 + (c1 - 0x80) * 0x40 + (c2 - 0x80)
          if cp < 0x800 ∨ (0xD800 ≤ cp ∧ cp ≤ 0xDFFF) then none
          else (utf8Decode t').map (cp :: ·)
        else none
      | _ => none
    else if b < 0xF8 then
      match t with
      | c1 :: c2 :: c3 :: t' =>
        if (0x80 ≤ c1 ∧ c1 < 0xC0) ∧ (0x80 ≤ c2 ∧ c2 < 0xC0) ∧ (0x80 ≤ c3 ∧ c3 < 0xC0) then
          let cp := (b - 0xF0) * 0x40000 + (c1 - 0x80) * 0x1000 +
                    (c2 - 0x80) * 0x40 + (c3 - 0x80)
          if cp < 0x10000 ∨ 0x10FFFF < cp then none
          else (utf8Decode t').map (cp :: ·)
        else none
      | _ => none
    else none

/-- The high half of code page 437 (byte `0x80 + i` maps to entry `i`);
models Python's `bytes.decode("cp437")`, which is total. -/
def cp437High : List Nat :=
  [0xC7, 0xFC, 0xE9, 0xE2, 0xE4, 0xE0, 0xE5, 0xE7,
   0xEA, 0xEB, 0xE8, 0xEF, 0xEE, 0xEC, 0xC4, 0xC5,
   0xC9, 0xE6, 0xC6, 0xF4, 0xF6, 0xF2, 0xFB, 0xF9,
   0xFF, 0xD6, 0xDC, 0xA2, 0xA3, 0xA5, 0x20A7, 0x192,
   0xE1, 0xED, 0xF3, 0xFA, 0xF1, 0xD1, 0xAA, 0xBA,
   0xBF, 0x2310, 0xAC, 0xBD, 0xBC, 0xA1, 0xAB, 0xBB,
   0x2591, 0x2592, 0x2593, 0x2502, 0x2524, 0x2561, 0x2562, 0x2556,
   0x2555, 0x2563, 0x2551, 0x2557, 0x255D, 0x255C, 0x255B, 0x2510,
   0x2514, 0x2534, 0x252C, 0x251C, 0x2500, 0x253C, 0x255E, 0x255F,
   0x255A, 0x2554, 0x2569, 0x2566, 0x2560, 0x2550, 0x256C, 0x2567,
   0x2568, 0x2564, 0x2565, 0x2559, 0x2558, 0x2552, 0x2553, 0x256B,
   0x256A, 0x2518, 0x250C, 0x2588, 0x2584, 0x258C, 0x2590, 0x2580,
   0x3B1, 0xDF, 0x393, 0x3C0, 0x3A3, 0x3C3, 0xB5, 0x3C4,
   0x3A6, 0x398, 0x3A9, 0x3B4, 0x221E, 0x3C6, 0x3B5, 0x2229,
   0x2261, 0xB1, 0x2265, 0x2264, 0x2320, 0x2321, 0xF7, 0x2248,
   0xB0, 0x2219, 0xB7, 0x221A, 0x207F, 0xB2, 0x25A0, 0xA0]

/-- Code page 437 decoding of a single byte. -/
def cp437Byte (b : Nat) : Nat :=
  if b < 0x80 then b else cp437High.getD (b - 0x80) 0

/-- `bytes.decode("cp437")` — total, one code point per byte. -/
def cp437Decode (bs : List Nat) : List Nat :=
  bs.map cp437Byte

/-- `_sanitize_filename`: terminate the name at the first NUL.  (On a POSIX
host `os.sep = "/"` and `os.altsep = None`, so the two separator-replacement
branches of the source are no-ops.) -/
def sanitizeFilename (filename : List Nat) : List Nat :=
  filename.takeWhile (· ≠ 0)

/-- The Python exception messages raised by the source, as structured data
(the source formats them as strings; the payloads identify the entry or
field involved). -/
inductive Msg where
  | notAZipFile
  | badCDOffset
  | truncatedCD
  | badMagicCD
  | corruptExtra (tp ln : Nat)
  | corruptZip64 (fieldName : List Nat)
  | corruptUnicodeExtra
  | corruptUnicodeExtraUtf8
  | multiDisk
  | truncatedFileHeader
  | badMagicFileHeader
  | fileNameDiffer (dirName hdrName : List Nat)
  | overlappedEntries (name : List Nat)
  | badCrcFor (name : List Nat)
  | encrypted
  deriving DecidableEq, Repr

/-- The Python exception classes raised (or propagated) by the source. -/
inductive ZErr where
  | badZipFile (m : Msg)
  | notImplementedError (m : String)
  | keyError
  | osError
  | eofError
  | valueError (m : String)
  | unsupportedOperation (m : String)
  | unicodeDecodeError
  | attributeError
  | assertionError
  deriving DecidableEq, Repr

/-- `"File size"` as code points, for the corrupt-zip64 message. -/
def fileSizeField : List Nat := [70, 105, 108, 101, 32, 115, 105, 122, 101]

/-- `"Compress size"` as code points. -/
def compressSizeField : List Nat :=
  [67, 111, 109, 112, 114, 101, 115, 115, 32, 115, 105, 122, 101]

/-- `"Header offset"` as code points. -/
def headerOffsetField : List Nat :=
  [72, 101, 97, 100, 101, 114, 32, 111, 102, 102, 115, 101, 116]

/-- `ZipInfo` — per-entry metadata decoded from one central directory record.
`header_offset` is an `Int` because the source adds the (possibly negative)
concatenation offset `concat` to it.  `CRC` is optional, mirroring the
`hasattr(zipinfo, "CRC")` check in `ZipExtFile.__init__`; the central
directory parser always sets it. -/
structure ZipInfo where
  orig_filename : List Nat := []
  filename : List Nat := []
  comment : List Nat := []
  extra : List Nat := []
  extract_version : Nat := 20
  flag_bits : Nat := 0
  compress_size : Nat := 0
  file_size : Nat := 0
  CRC : Option Nat := none
  header_offset : Int := 0
  end_offset : Option Int := none
  deriving DecidableEq, Repr

instance : Inhabited ZipInfo := ⟨{}⟩

/-- `ZipInfo.__init__(filename)`: record the original name and sanitize it. -/
def mkZipInfo (filename : List Nat) : ZipInfo :=
  { orig_filename := filename, filename := sanitizeFilename filename }

/-- The body of `ZipInfo._decodeExtra` for a single extra-field record of
type `tp` with payload `data` (the `ln` bytes after the 4-byte record
header), given the CRC-32 `filename_crc` of the raw on-disk filename. -/
def decodeExtraRecord (z : ZipInfo) (tp : Nat) (data : List Nat)
    (filename_crc : Nat) : Except ZErr ZipInfo :=
  if tp = 1 then
    -- zip64 record: progressively override sentinel-flagged fields,
    -- consuming 8 bytes per overridden field; `struct.unpack("<Q", data[:8])`
    -- fails when fewer than 8 bytes remain, naming the field.
    let z1fs : Bool := z.file_size = 0xFFFFFFFFFFFFFFFF ∨ z.file_size = 0xFFFFFFFF
    let d0 := data
    if z1fs ∧ d0.length < 8 then
      .error (.badZipFile (.corruptZip64 fileSizeField))
    else
      let z := if z1fs then { z with file_size := fld d0 0 8 } else z
      let d1 := if z1fs then d0.drop 8 else d0
      let z2cs : Bool := z.compress_size = 0xFFFFFFFF
      if z2cs ∧ d1.length < 8 then
        .error (.badZipFile (.corruptZip64 compressSizeField))
      else
        let z := if z2cs then { z with compress_size := fld d1 0 8 } else z
        let d2 := if z2cs then d1.drop 8 else d1
        let z3ho : Bool := z.header_offset = (0xFFFFFFFF : Int)
        if z3ho ∧ d2.length < 8 then
          .error (.badZipFile (.corruptZip64 headerOffsetField))
        else
          let z := if z3ho then { z with header_offset := (fld d2 0 8 : Nat) } else z
          .ok z
  else if tp = 0x7075 then
    -- unicode path record: `unpack("<BL", data[:5])` needs 5 bytes.
    if data.length < 5 then
      .error (.badZipFile .corruptUnicodeExtra)
    else
      let up_version := data.headD 0
      let up_name_crc := fld data 1 4
      if up_version = 1 ∧ up_name_crc = filename_crc then
        match utf8Decode (data.drop 5) with
        | none => .error (.badZipFile .corruptUnicodeExtraUtf8)
        | some up_unicode_name =>
          if up_unicode_name ≠ [] then
            .ok { z with filename := sanitizeFilename up_unicode_name }
          else
            .ok z  -- empty name: only a warning is emitted
      else
        .ok z  -- version or name-CRC mismatch: silently ignored
  else
    .ok z  -- unknown record type: skipped

/-- `ZipInfo._decodeExtra`: iterate the extra-field records in `z.extra`.
The loop runs while at least 4 header bytes remain; a record whose declared
length overruns the buffer is a fatal corrupt-extra-field error.  `fuel`
bounds the number of iterations: each iteration consumes at least 4 bytes of
`extra`, so the `extra.length + 1` supplied by `decodeExtra` can never run
out with the loop guard still true, and the fuel-exhausted branch (which
mirrors the loop exit) is unreachable. -/
def decodeExtraLoop : Nat → ZipInfo → List Nat → Nat → Except ZErr ZipInfo
  | fuel + 1, z, extra, filename_crc =>
    if 4 ≤ extra.length then
      let tp := fld extra 0 2
      let ln := fld extra 2 2
      if ln + 4 > extra.length then
        .error (.badZipFile (.corruptExtra tp ln))
      else
        match decodeExtraRecord z tp (getBytes extra 4 ln) filename_crc with
        | .error e => .error e
        | .ok z' => decodeExtraLoop fuel z' (extra.drop (ln + 4)) filename_crc
    else
      .ok z
  | 0, z, _, _ => .ok z

/-- `ZipInfo._decodeExtra(self, filename_crc)`. -/
def decodeExtra (z : ZipInfo) (filename_crc : Nat) : Except ZErr ZipInfo :=
  decodeExtraLoop (z.extra.length + 1) z z.extra filename_crc

/-! ## End-of-central-directory locator -/

/-- The parsed EOCD record (Python keeps it as a plain list; the names below
follow the indices: `endrec[0] = sig`, …, `endrec[7] = comment_size`,
`endrec[8] = comment`, `endrec[9]` = absolute offset of the record). -/
structure Endrec where
  sig : List Nat
  disk_num : Nat
  disk_dir : Nat
  dircount : Nat
  dircount2 : Nat
  dirsize : Nat
  diroffset : Nat
  comment_size : Nat
  comment : List Nat
  location : Nat
  deriving DecidableEq, Repr

/-- `struct.unpack(structEndArchive, recData)` — decode the 22-byte EOCD
record (comment and location are appended by the caller). -/
def parseEOCD (r : List Nat) : Endrec :=
  { sig := r.take 4
    disk_num := fld r 4 2
    disk_dir := fld r 6 2
    dircount := fld r 8 2
    dircount2 := fld r 10 2
    dirsize := fld r 12 4
    diroffset := fld r 16 4
    comment_size := fld r 20 2
    comment := []
    location := 0 }

/-- `b"PK\x06\x07"`, `b"PK\x06\x06"`, `b"PK\x05\x06"`, `b"PK\x01\x02"`,
`b"PK\x03\x04"`. -/
def sigEndArchive64Locator : List Nat := [0x50, 0x4B, 6, 7]

def sigEndArchive64 : List Nat := [0x50, 0x4B, 6, 6]

def sigEndArchive : List Nat := [0x50, 0x4B, 5, 6]

def sigCentralDir : List Nat := [0x50, 0x4B, 1, 2]

def sigFileHeader : List Nat := [0x50, 0x4B, 3, 4]

/-- `_EndRecData64(fpin, offset, endrec)`: probe for a zip64 EOCD locator
(20 bytes) and zip64 EOCD (56 bytes) immediately before the plain EOCD.
`offset` is the (negative) end-relative offset of the plain EOCD.  The first
seek is guarded by `try/except OSError` (fall back to the 32-bit record);
the second seek is *not* guarded, so a file too short to hold a zip64 EOCD
after a well-formed locator raises `OSError`. -/
def _EndRecData64 (bs : List Nat) (offset : Int) (endrec : Endrec) :
    Except ZErr Endrec :=
  let filesize : Int := bs.length
  if filesize + (offset - 20) < 0 then .ok endrec  -- seek raised OSError: caught
  else
    let data := getBytes bs (filesize + (offset - 20)).toNat 20
    if data.length ≠ 20 then .ok endrec
    else if data.take 4 ≠ sigEndArchive64Locator then .ok endrec
    else
      let diskno := fld data 4 4
      let disks := fld data 16 4
      if diskno ≠ 0 ∨ disks > 1 then .error (.badZipFile .multiDisk)
      else if filesize + (offset - 76) < 0 then .error .osError  -- unguarded seek
      else
        let data := getBytes bs (filesize + (offset - 76)).toNat 56
        if data.length ≠ 56 then .ok endrec
        else if data.take 4 ≠ sigEndArchive64 then .ok endrec
        else
          .ok { endrec with
                sig := data.take 4
                disk_num := fld data 16 4
                disk_dir := fld data 20 4
                dircount := fld data 24 8
                dircount2 := fld data 32 8
                dirsize := fld data 40 8
                diroffset := fld data 48 8 }

/-- `data.rfind(stringEndArchive)` — index of the last full occurrence of the
EOCD signature in `l`, or `none`. -/
def rfindEOCDSig (l : List Nat) : Option Nat :=
  ((List.range l.length).filter (fun i => getBytes l i 4 = sigEndArchive)).getLast?

/-- `_EndRecData(fpin)`: locate the plain EOCD record at end of stream (direct
probe for a comment-free archive, else a backward scan over the last
64 KiB + 22 bytes), then run the zip64 probe.  `none` means "no EOCD found"
(the caller turns it into "File is not a zip file"). -/
def _EndRecData (bs : List Nat) : Except ZErr (Option Endrec) :=
  let filesize := bs.length
  if filesize < 22 then .ok none  -- seek(-22, 2) raised OSError: caught → None
  else
    let data := bs.drop (filesize - 22)
    if data.take 4 = sigEndArchive ∧ getBytes data 20 2 = [0, 0] then
      let endrec := { parseEOCD data with comment := [], location := filesize - 22 }
      (_EndRecData64 bs (-22) endrec).map some
    else
      let maxCommentStart := filesize - (1 <<< 16) - 22  -- max(…, 0) via Nat truncation
      let data2 := bs.drop maxCommentStart
      match rfindEOCDSig data2 with
      | some start =>
        let recData := getBytes data2 start 22
        if recData.length ≠ 22 then .ok none
        else
          let endrec0 := parseEOCD recData
          let comment := getBytes data2 (start + 22) endrec0.comment_size
          let endrec := { endrec0 with comment := comment, location := maxCommentStart + start }
          (_EndRecData64 bs ((maxCommentStart : Int) + start - filesize) endrec).map some
      | none => .ok none  -- implicit `return None`

/-! ## Central directory parser -/

/-- The `while total < size_cd` loop of `_RealGetContents`, reading 46-byte
central-directory records plus their variable-length parts from the
`size_cd`-byte scratch buffer `data` at position `p`.  `fuel` bounds the
iterations: each one advances `total` by at least 46, so the `size_cd + 1`
supplied by `_RealGetContents` can never be exhausted with the guard still
true. -/
def parseCDLoop (data : List Nat) (size_cd : Nat) (concat : Int) :
    Nat → Nat → Nat → List ZipInfo → Except ZErr (List ZipInfo)
  | fuel + 1, p, total, acc =>
    if total < size_cd then
      let centdir := getBytes data p 46
      if centdir.length ≠ 46 then .error (.badZipFile .truncatedCD)
      else if centdir.take 4 ≠ sigCentralDir then .error (.badZipFile .badMagicCD)
      else
        let fnlen := fld centdir 28 2
        let extralen := fld centdir 30 2
        let commentlen := fld centdir 32 2
        let filenameBytes := getBytes data (p + 46) fnlen
        let orig_filename_crc := crc32 filenameBytes
        let flags := fld centdir 8 2
        match (if flags &&& 0x0800 ≠ 0 then utf8Decode filenameBytes
               else some (cp437Decode filenameBytes)) with
        | none => .error .unicodeDecodeError  -- propagates out of the parse
        | some fnStr =>
          let x := mkZipInfo fnStr
          let x := { x with
                     extra := getBytes data (p + 46 + fnlen) extralen
                     comment := getBytes data (p + 46 + fnlen + extralen) commentlen
                     header_offset := (fld centdir 42 4 : Nat)
                     extract_version := fld centdir 6 1
                     flag_bits := flags
                     CRC := some (fld centdir 16 4)
                     compress_size := fld centdir 20 4
                     file_size := fld centdir 24 4 }
          if x.extract_version > 63 then
            .error (.notImplementedError "zip file version")
          else
            match decodeExtra x orig_filename_crc with
            | .error e => .error e
            | .ok x =>
              let x := { x with header_offset := x.header_offset + concat }
              parseCDLoop data size_cd concat fuel
                (p + 46 + fnlen + extralen + commentlen)
                (total + 46 + fnlen + extralen + commentlen) (acc ++ [x])
    else .ok acc
  | 0, _, _, acc => .ok acc  -- fuel exhausted: unreachable, see `_RealGetContents`

/-- Descending-by-`header_offset` order on indexed entries.  Python's
`sorted(key=…, reverse=True)` is a stable descending sort; on the
index-tagged list any stable sort agrees with `insertionSort` under this
relation, which the embedding uses. -/
def hoDescRel (a b : Nat × ZipInfo) : Prop :=
  b.2.header_offset ≤ a.2.header_offset

instance : DecidableRel hoDescRel := fun a b =>
  inferInstanceAs (Decidable (b.2.header_offset ≤ a.2.header_offset))

instance : IsTotal (Nat × ZipInfo) hoDescRel :=
  ⟨fun a b => le_total b.2.header_offset a.2.header_offset⟩

instance : IsTrans (Nat × ZipInfo) hoDescRel :=
  ⟨fun _ _ _ h1 h2 => le_trans h2 h1⟩

/-- The end-offset sweep (`_RealGetContents`, final `for` loop): walk the
entries in descending `header_offset` order; the first gets
`end_offset := start_dir`, each next one the previous entry's
`header_offset`. -/
def sweepIdx : Int → List (Nat × ZipInfo) → List (Nat × ZipInfo)
  | _, [] => []
  | e, (i, z) :: t => (i, { z with end_offset := some e }) :: sweepIdx z.header_offset t

/-- Apply the sweep and write each entry's `end_offset` back into the
central-directory-ordered `filelist` (Python mutates the shared `ZipInfo`
objects in place; the index tags identify them). -/
def assignEndOffsets (filelist : List ZipInfo) (start_dir : Int) : List ZipInfo :=
  let swept := sweepIdx start_dir (List.insertionSort hoDescRel filelist.enum)
  filelist.enum.map (fun iz =>
    match swept.find? (fun p => p.1 == iz.1) with
    | some p => p.2
    | none => iz.2)

/-- The result of `_RealGetContents`: the entry list (central-directory
order, with `end_offset` assigned) and `start_dir`. -/
structure CDResult where
  filelist : List ZipInfo
  start_dir : Int
  deriving DecidableEq, Repr

/-- `ZipFile._RealGetContents` over the full underlying stream `bs`. -/
def _RealGetContents (bs : List Nat) : Except ZErr CDResult :=
  match _EndRecData bs with
  | .error .osError => .error (.badZipFile .notAZipFile)  -- except OSError
  | .error e => .error e
  | .ok none => .error (.badZipFile .notAZipFile)
  | .ok (some endrec) =>
    let size_cd := endrec.dirsize
    let offset_cd := endrec.diroffset
    let concat0 : Int := (endrec.location : Int) - size_cd - offset_cd
    let concat := if endrec.sig = sigEndArchive64 then concat0 - (56 + 20) else concat0
    let start_dir : Int := offset_cd + concat
    if start_dir < 0 then .error (.badZipFile .badCDOffset)
    else
      let data := getBytes bs start_dir.toNat size_cd
      match parseCDLoop data size_cd concat (size_cd + 1) 0 0 [] with
      | .error e => .error e
      | .ok filelist =>
        .ok { filelist := assignEndOffsets filelist start_dir, start_dir := start_dir }

/-- `self.NameToInfo` lookup: the dict is written in central-directory order,
so a duplicate name resolves to the *last* entry bearing it. -/
def nameToInfoGet (filelist : List ZipInfo) (name : List Nat) : Option ZipInfo :=
  (filelist.filter (fun z => z.filename = name)).getLast?

/-! ## Shared stream handle -/

/-- `_SharedFile`: a per-entry cursor (`pos`) over the archive's one real
stream.  `realPos` is the real stream's own position, which another handle
may have moved; `file` is the stream's contents.  (All physical I/O happens
under the archive lock in the source; the lock itself has no observable
effect on this sequential model.) -/
structure SharedFile where
  file : List Nat
  fseekable : Bool := true
  realPos : Int := 0
  pos : Int := 0
  deriving DecidableEq, Repr

/-- `_SharedFile.read(n)`: seek the real stream to this handle's `pos`
(a negative `pos` makes that seek raise `OSError`), read, then record the
real stream's new position.  `n < 0` means "read to end". -/
def sfRead (s : SharedFile) (n : Int) : SharedFile × Except ZErr (List Nat) :=
  if s.pos < 0 then (s, .error .osError)
  else
    let avail := s.file.drop s.pos.toNat
    let data := if n < 0 then avail else avail.take n.toNat
    ({ s with realPos := s.pos + data.length, pos := s.pos + data.length }, .ok data)

/-- `_SharedFile.seek(offset, whence)`: seek the *real* stream — the handle's
recorded `pos` is *not* restored first, so `SEEK_CUR` resolves against
`realPos` — then record the new position. -/
def sfSeek (s : SharedFile) (offset : Int) (whence : Nat) :
    SharedFile × Except ZErr Int :=
  let target : Int :=
    if whence = 0 then offset
    else if whence = 1 then s.realPos + offset
    else (s.file.length : Int) + offset
  if target < 0 then (s, .error .osError)
  else ({ s with realPos := target, pos := target }, .ok target)

/-- `_SharedFile.tell()`. -/
def sfTell (s : SharedFile) : Int := s.pos

/-! ## Extraction stream (`ZipExtFile`) -/

/-- The mutable state of a `ZipExtFile`.  `orig_*` fields support rewinding;
they are only meaningful when `seekable` (when the zipinfo carried no CRC,
the source's `try` block dies with `AttributeError` before finishing, leaving
`_seekable = False`, so the partially-assigned fields are never read). -/
structure ZipExtSt where
  fileobj : SharedFile
  compress_left : Int
  left : Int
  eof : Bool
  readbuffer : List Nat
  offset : Nat
  name : List Nat
  expected_crc : Option Nat
  running_crc : Nat
  seekable : Bool
  orig_compress_start : Int
  orig_compress_size : Int
  orig_file_size : Int
  orig_start_crc : Nat
  orig_crc : Option Nat
  closed : Bool
  deriving DecidableEq, Repr

/-- `ZipExtFile.__init__(fileobj, zipinfo)`. -/
def initZipExtFile (fileobj : SharedFile) (zinfo : ZipInfo) : ZipExtSt :=
  { fileobj := fileobj
    compress_left := zinfo.compress_size
    left := zinfo.file_size
    eof := false
    readbuffer := []
    offset := 0
    name := zinfo.filename
    expected_crc := zinfo.CRC
    running_crc := 0  -- crc32(b"")
    -- `self._orig_start_crc = self._running_crc` raises AttributeError when
    -- the zipinfo had no CRC, so `_seekable` then stays False.
    seekable := fileobj.fseekable && zinfo.CRC.isSome
    orig_compress_start := fileobj.pos  -- fileobj.tell()
    orig_compress_size := zinfo.compress_size
    orig_file_size := zinfo.file_size
    orig_start_crc := 0
    orig_crc := zinfo.CRC
    closed := false }

/-- `ZipExtFile._update_crc(newdata)`: feed the running CRC; compare against
the expected CRC only once `_eof` is set. -/
def updateCrc (st : ZipExtSt) (newdata : List Nat) : ZipExtSt × Except ZErr Unit :=
  match st.expected_crc with
  | none => (st, .ok ())  -- no need to compute the CRC: checksum forfeited
  | some expected =>
    let st := { st with running_crc := crc32 newdata st.running_crc }
    if st.eof ∧ st.running_crc ≠ expected then
      (st, .error (.badZipFile (.badCrcFor st.name)))
    else (st, .ok ())

/-- `ZipExtFile._read2(n)`: pull at least `MIN_READ_SIZE = 4096` and at most
`compress_left` bytes from the shared handle; an empty read with compressed
bytes still owed raises `EOFError`.  (`self._decrypter` is always `None` in
this source, so the decryption branch is dead.) -/
def read2 (st : ZipExtSt) (n : Int) : ZipExtSt × Except ZErr (List Nat) :=
  if st.compress_left ≤ 0 then (st, .ok [])
  else
    let n := max n 4096
    let n := min n st.compress_left
    match sfRead st.fileobj n with
    | (f, .error e) => ({ st with fileobj := f }, .error e)
    | (f, .ok data) =>
      let st := { st with fileobj := f, compress_left := st.compress_left - data.length }
      if data = [] then (st, .error .eofError)
      else (st, .ok data)

/-- `ZipExtFile._read1(n)`: read raw bytes, set `_eof` from the counters,
clip to `_left` (never negative when this runs: Python's `data[:left]`),
and feed the checksum. -/
def read1 (st : ZipExtSt) (n : Int) : ZipExtSt × Except ZErr (List Nat) :=
  if st.eof ∨ n ≤ 0 then (st, .ok [])
  else
    match read2 st n with
    | (st, .error e) => (st, .error e)
    | (st, .ok data) =>
      let st := { st with eof := st.compress_left ≤ 0 }
      let data := data.take st.left.toNat
      let st := { st with left := st.left - data.length }
      let st := if st.left ≤ 0 then { st with eof := true } else st
      match updateCrc st data with
      | (st, .error e) => (st, .error e)
      | (st, .ok _) => (st, .ok data)

/-- The `while n > 0 and not self._eof` loop of `ZipExtFile.read(n)` for a
non-negative byte budget `n`; excess bytes from the last chunk are stashed in
the read buffer.  (When `_read1` returns no bytes it has necessarily set
`_eof`, so Python's loop recheck exits; the empty-data branch returns
directly, which is the same behaviour.)  `fuel` bounds the iterations: each
continuing iteration shrinks `n` by at least one, so the `n + 1` supplied by
`zread` can never be exhausted with the guard still true. -/
def readLoop : Nat → ZipExtSt → Nat → List Nat → ZipExtSt × Except ZErr (List Nat)
  | fuel + 1, st, n, buf =>
    if n = 0 ∨ st.eof then (st, .ok buf)
    else
      match read1 st n with
      | (st', .error e) => (st', .error e)
      | (st', .ok data) =>
        if n < data.length then
          ({ st' with readbuffer := data, offset := n }, .ok (buf ++ data.take n))
        else if data.length = 0 then (st', .ok buf)
        else readLoop fuel st' (n - data.length) (buf ++ data)
  | 0, st, _, buf => (st, .ok buf)  -- fuel exhausted: unreachable, see `zread`

/-- The `while not self._eof` drain loop of `ZipExtFile.read()` with a
negative/absent byte count (`MAX_N` is `1 << 31 - 1`, i.e. `2 ** 30` by
Python operator precedence).  `fuel` bounds the iterations: a continuing
iteration returned data, which shrank `_compress_left` by at least one, so
the `compress_left.toNat + 1` supplied by `zread` can never be exhausted
with the guard still true. -/
def drainLoop : Nat → ZipExtSt → List Nat → ZipExtSt × Except ZErr (List Nat)
  | fuel + 1, st, buf =>
    if st.eof then (st, .ok buf)
    else
      match read1 st (1 <<< 30) with
      | (st', .error e) => (st', .error e)
      | (st', .ok data) =>
        if data.length = 0 then (st', .ok buf)  -- `_eof` was set; the loop recheck exits
        else drainLoop fuel st' (buf ++ data)
  | 0, st, buf => (st, .ok buf)  -- fuel exhausted: unreachable

/-- `ZipExtFile.read(n)`: `n < 0` models Python's `None`/negative drain-all;
otherwise serve from the buffer first, then pull chunks. -/
def zread (st : ZipExtSt) (n : Int) : ZipExtSt × Except ZErr (List Nat) :=
  if st.closed then (st, .error (.valueError "read from closed file."))
  else if n < 0 then
    let buf := st.readbuffer.drop st.offset
    let st := { st with readbuffer := [], offset := 0 }
    drainLoop (st.compress_left.toNat + 1) st buf
  else
    let endi := n.toNat + st.offset
    if endi < st.readbuffer.length then
      let buf := (st.readbuffer.drop st.offset).take (endi - st.offset)
      ({ st with offset := endi }, .ok buf)
    else
      let n' := endi - st.readbuffer.length
      let buf := st.readbuffer.drop st.offset
      let st := { st with readbuffer := [], offset := 0 }
      readLoop (n' + 1) st n' buf

/-- `self.tell()`'s position formula,
`orig_file_size - left - len(readbuffer) + offset`. -/
def tellVal (st : ZipExtSt) : Int :=
  st.orig_file_size - st.left - st.readbuffer.length + st.offset

/-- `ZipExtFile.tell()`. -/
def ztell (st : ZipExtSt) : Except ZErr Int :=
  if st.closed then .error (.valueError "tell on closed file.")
  else if ¬ st.seekable then
    .error (.unsupportedOperation "underlying stream is not seekable")
  else .ok (tellVal st)

/-- The `while read_offset > 0` read-and-discard loop of `ZipExtFile.seek`
(`MAX_SEEK_READ = 1 << 24`); note it decrements by the *requested* length,
whether or not `read` could deliver that many bytes.  `fuel` bounds the
iterations: each one shrinks `read_offset` by at least one, so the
`read_offset.toNat + 1` supplied by `zseek` can never be exhausted with the
guard still true. -/
def seekLoop : Nat → ZipExtSt → Int → ZipExtSt × Except ZErr Unit
  | fuel + 1, st, read_offset =>
    if read_offset > 0 then
      let read_len := min (1 <<< 24 : Int) read_offset
      match zread st read_len with
      | (st', .error e) => (st', .error e)
      | (st', .ok _) => seekLoop fuel st' (read_offset - read_len)
    else (st, .ok ())
  | 0, st, _ => (st, .ok ())  -- fuel exhausted: unreachable, see `zseek`

/-- `ZipExtFile.seek(offset, whence)`. -/
def zseek (st : ZipExtSt) (offset : Int) (whence : Nat) :
    ZipExtSt × Except ZErr Int :=
  if st.closed then (st, .error (.valueError "seek on closed file."))
  else if ¬ st.seekable then
    (st, .error (.unsupportedOperation "underlying stream is not seekable"))
  else
    let curr_pos := tellVal st  -- self.tell()
    match (match whence with
           | 0 => some offset
           | 1 => some (curr_pos + offset)
           | 2 => some (st.orig_file_size + offset)
           | _ => none) with
    | none => (st, .error (.valueError "whence must be 0, 1 or 2"))
    | some new_pos0 =>
      let new_pos1 := if new_pos0 > st.orig_file_size then st.orig_file_size else new_pos0
      let new_pos := if new_pos1 < 0 then 0 else new_pos1
      let read_offset := new_pos - curr_pos
      let buff_offset := read_offset + st.offset
      -- case (a): the target lies inside the current read buffer
      if 0 ≤ buff_offset ∧ buff_offset < (st.readbuffer.length : Int) then
        let st := { st with offset := buff_offset.toNat }
        (st, .ok (tellVal st))  -- read_offset = 0; the loop does nothing
      -- case (b): forward skip (`self._decrypter is None` always holds here)
      else if read_offset > 0 then
        let st := { st with expected_crc := none }  -- checksum forfeited
        let skip := read_offset - ((st.readbuffer.length : Int) - st.offset)
        match sfSeek st.fileobj skip 1 with
        | (f, .error e) => ({ st with fileobj := f }, .error e)
        | (f, .ok _) =>
          let st := { st with
            fileobj := f, left := st.left - skip,
            readbuffer := [], offset := 0 }
          (st, .ok (tellVal st))  -- read_offset = 0; the loop does nothing
      -- case (c): rewind to the entry start, then replay forward
      else if read_offset < 0 then
        match sfSeek st.fileobj st.orig_compress_start 0 with
        | (f, .error e) => ({ st with fileobj := f }, .error e)
        | (f, .ok _) =>
          let st := { st with
            fileobj := f,
            running_crc := st.orig_start_crc,
            expected_crc := st.orig_crc,
            compress_left := st.orig_compress_size,
            left := st.orig_file_size,
            readbuffer := [],
            offset := 0,
            eof := false }
          match seekLoop (new_pos.toNat + 1) st new_pos with
          | (st, .error e) => (st, .error e)
          | (st, .ok _) => (st, .ok (tellVal st))
      else
        (st, .ok (tellVal st))  -- read_offset = 0 and not in buffer

/-! ## Archive (`ZipFile`) -/

/-- The mutable state of a `ZipFile`.  `fp` records whether `self.fp` is
still set (after `_fpclose` it is `None`); `fpRealPos` is the real stream's
position (irrelevant to every archive operation, since `_SharedFile.read`
re-seeks first); `streamClosed` records whether the underlying stream's own
`close()` was ever invoked — no code path in the source ever invokes it. -/
structure ZipFileSt where
  file : List Nat
  fp : Bool
  fpRealPos : Int
  streamClosed : Bool
  fileRefCnt : Int
  filelist : List ZipInfo
  start_dir : Int
  deriving DecidableEq, Repr

instance : Inhabited ZipFileSt :=
  ⟨{ file := [], fp := false, fpRealPos := 0, streamClosed := false,
     fileRefCnt := 0, filelist := [], start_dir := 0 }⟩

/-- `ZipFile._fpclose(fp)`: the passed-in handle is shadowed by `self.fp`,
`self.fp` is cleared, and the count decremented (`assert` first).  The
underlying stream's `close()` is never called — at any reference count. -/
def fpclose (st : ZipFileSt) : ZipFileSt × Except ZErr Unit :=
  let st := { st with fp := false }
  if st.fileRefCnt > 0 then
    ({ st with fileRefCnt := st.fileRefCnt - 1 }, .ok ())
  else (st, .error .assertionError)

/-- `ZipFile.close()`. -/
def zipClose (st : ZipFileSt) : ZipFileSt × Except ZErr Unit :=
  if ¬ st.fp then (st, .ok ()) else fpclose st

/-- The `try` block of `ZipFile.open(name)`: read/validate the local file
header through the fresh shared handle, apply the flag/name/overlap checks,
and construct the extraction stream.  Returns the final handle state in both
outcomes. -/
def openInner (zef0 : SharedFile) (zinfo : ZipInfo) :
    SharedFile × Except ZErr ZipExtSt :=
  match sfRead zef0 30 with  -- sizeFileHeader
  | (zef, .error e) => (zef, .error e)
  | (zef, .ok fheader) =>
    if fheader.length ≠ 30 then (zef, .error (.badZipFile .truncatedFileHeader))
    else if fheader.take 4 ≠ sigFileHeader then
      (zef, .error (.badZipFile .badMagicFileHeader))
    else
      let fnlen := fld fheader 26 2
      let extralen := fld fheader 28 2
      match sfRead zef fnlen with
      | (zef, .error e) => (zef, .error e)
      | (zef, .ok fname) =>
        match (if extralen ≠ 0 then sfSeek zef extralen 1
               else (zef, .ok zef.pos)) with
        | (zef, .error e) => (zef, .error e)
        | (zef, .ok _) =>
          if zinfo.flag_bits &&& 0x20 ≠ 0 then
            (zef, .error (.notImplementedError "compressed patched data (flag bit 5)"))
          else if zinfo.flag_bits &&& 0x40 ≠ 0 then
            (zef, .error (.notImplementedError "strong encryption (flag bit 6)"))
          else
            let fhFlags := fld fheader 6 2
            match (if fhFlags &&& 0x800 ≠ 0 then utf8Decode fname
                   else some (cp437Decode fname)) with
            | none => (zef, .error .unicodeDecodeError)
            | some fname_str =>
              if fname_str ≠ zinfo.orig_filename then
                (zef, .error (.badZipFile (.fileNameDiffer zinfo.orig_filename fname_str)))
              else if (match zinfo.end_offset with
                       | some eo => decide (sfTell zef + (zinfo.compress_size : Int) > eo)
                       | none => false) then
                (zef, .error (.badZipFile (.overlappedEntries zinfo.orig_filename)))
              else if zinfo.flag_bits &&& 1 ≠ 0 then
                (zef, .error (.badZipFile .encrypted))  -- bare `raise BadZipFile`
              else (zef, .ok (initZipExtFile zef zinfo))

/-- `ZipFile.open(name)`.  On a lookup miss, `KeyError` (before anything is
acquired).  The reference count is incremented before the handle exists; a
`None` `self.fp` dies with `AttributeError` inside the `_SharedFile`
constructor — *outside* the `try`, so nothing is released.  Any error inside
the `try` first runs `zef_file.close()` (which is `self._fpclose`: it clears
`self.fp` and decrements the count) and then re-raises. -/
def zopen (st : ZipFileSt) (name : List Nat) : ZipFileSt × Except ZErr ZipExtSt :=
  match nameToInfoGet st.filelist name with
  | none => (st, .error .keyError)
  | some zinfo =>
    let st := { st with fileRefCnt := st.fileRefCnt + 1 }
    if ¬ st.fp then (st, .error .attributeError)
    else
      let zef : SharedFile :=
        { file := st.file, realPos := st.fpRealPos, pos := zinfo.header_offset }
      match openInner zef zinfo with
      | (zef', .ok ext) => ({ st with fpRealPos := zef'.realPos }, .ok ext)
      | (zef', .error e) =>
        let st := { st with fpRealPos := zef'.realPos }
        match fpclose st with
        | (st, .ok _) => (st, .error e)
        | (st, .error e2) => (st, .error e2)

/-- `ZipFile.__init__(file)` / `open_archive`: parse the table of contents;
on failure `self._fpclose(self.fp)` runs and the error propagates (the
partially-built object is discarded, so only the error is observable). -/
def openArchive (bs : List Nat) : Except ZErr ZipFileSt :=
  match _RealGetContents bs with
  | .error e => .error e
  | .ok r =>
    .ok { file := bs, fp := true, fpRealPos := bs.length, streamClosed := false,
          fileRefCnt := 1, filelist := r.filelist, start_dir := r.start_dir }

/-! ## Concrete archive builders (for the concrete inputs of the theorems) -/

/-- A 46-byte central-directory record followed by its name and extra field
(`structCentralDir` layout, create/extract version 20, method/time/date 0). -/
def cdRecord (flags csize fsize crcv : Nat) (fn extra : List Nat) (ho : Nat) :
    List Nat :=
  sigCentralDir ++ [20, 0, 20, 0] ++ leBytes 2 flags ++ leBytes 2 0 ++
    leBytes 2 0 ++ leBytes 2 0 ++ leBytes 4 crcv ++ leBytes 4 csize ++
    leBytes 4 fsize ++ leBytes 2 fn.length ++ leBytes 2 extra.length ++
    leBytes 2 0 ++ leBytes 2 0 ++ leBytes 2 0 ++ leBytes 4 0 ++
    leBytes 4 ho ++ fn ++ extra

/-- A 22-byte EOCD record with no comment (`structEndArchive` layout). -/
def eocdRecord (count size offset : Nat) : List Nat :=
  sigEndArchive ++ leBytes 2 0 ++ leBytes 2 0 ++ leBytes 2 count ++
    leBytes 2 count ++ leBytes 4 size ++ leBytes 4 offset ++ leBytes 2 0

/-- A 30-byte local file header followed by its name and extra field
(`structFileHeader` layout). -/
def localHeader (flags csize fsize crcv : Nat) (fn extra : List Nat) :
    List Nat :=
  sigFileHeader ++ [20, 0] ++ leBytes 2 flags ++ leBytes 2 0 ++ leBytes 2 0 ++
    leBytes 2 0 ++ leBytes 4 crcv ++ leBytes 4 csize ++ leBytes 4 fsize ++
    leBytes 2 fn.length ++ leBytes 2 extra.length ++ fn ++ extra

/-- The zip64 sentinel test for `file_size` (`0xFFFF_FFFF_FFFF_FFFF` or
`0xFFFF_FFFF`). -/
def zip64FsFlag (z : ZipInfo) : Bool :=
  decide (z.file_size = 0xFFFFFFFFFFFFFFFF ∨ z.file_size = 0xFFFFFFFF)

/-- The zip64 sentinel test for `compress_size`. -/
def zip64CsFlag (z : ZipInfo) : Bool :=
  decide (z.compress_size = 0xFFFFFFFF)

/-- The zip64 sentinel test for `header_offset`. -/
def zip64HoFlag (z : ZipInfo) : Bool :=
  decide (z.header_offset = (0xFFFFFFFF : Int))

/-- Offset inside a zip64 payload at which the `compress_size` value sits. -/
def zip64CsOff (z : ZipInfo) : Nat :=
  if zip64FsFlag z then 8 else 0

/-- Offset inside a zip64 payload at which the `header_offset` value sits. -/
def zip64HoOff (z : ZipInfo) : Nat :=
  zip64CsOff z + (if zip64CsFlag z then 8 else 0)

/-- Total zip64 payload bytes needed by the flagged fields of `z`. -/
def zip64Need (z : ZipInfo) : Nat :=
  zip64HoOff z + (if zip64HoFlag z then 8 else 0)

/-- The on-disk extents `[header_offset, end_offset)` of two entries do not
overlap (entries without a computed `end_offset` impose nothing). -/
def ivDisjoint (a b : ZipInfo) : Prop :=
  ∀ ea eb, a.end_offset = some ea → b.end_offset = some eb →
    ∀ x : Int, ¬(a.header_offset ≤ x ∧ x < ea ∧ b.header_offset ≤ x ∧ x < eb)

/-- A degenerate but accepted archive: one central-directory record whose
`header_offset` (0) coincides with `start_dir` (0): the central directory is
at the very start of the stream, so the sweep assigns
`end_offset = start_dir = 0 = header_offset`. -/
def arcC1 : List Nat := cdRecord 0x800 0 0 0 [] [] 0 ++ eocdRecord 1 46 0

/-- A well-formed archive: 46 filler bytes for the entry's region, then the
central directory (one record pointing at offset 0), then the EOCD. -/
def arcC1w : List Nat :=
  List.replicate 46 0 ++ cdRecord 0x800 0 0 0 [] [] 0 ++ eocdRecord 1 46 46

/-- A one-byte member opened with an (incorrect) expected CRC-32 of `0`:
reading it to the end must trigger the deferred checksum comparison. -/
def c3st : ZipExtSt :=
  initZipExtFile { file := [65] } { compress_size := 1, file_size := 1, CRC := some 0 }

/-- The state/result pair produced by `_read1` on `c3st`. -/
def c3res : ZipExtSt × Except ZErr (List Nat) := read1 c3st 1

/-- A two-byte member (inside a three-byte stream) whose stored CRC-32 is the
correct checksum of its bytes, so `_read1` succeeds. -/
def c4st : ZipExtSt :=
  initZipExtFile { file := [65, 66, 67] }
    { compress_size := 2, file_size := 2, CRC := some (crc32 [65, 66] 0) }

/-- The state/result pair produced by `_read1` on `c4st`. -/
def c4res : ZipExtSt × Except ZErr (List Nat) := read1 c4st 2

/-- A central-directory entry claiming strong encryption (flag bit 6), with a
computed `end_offset` of `0` that its data window necessarily exceeds. -/
def c2zinfo : ZipInfo :=
  { orig_filename := [97], filename := [97], flag_bits := 0x40,
    compress_size := 5, header_offset := 0, end_offset := some 0 }

/-- An archive state serving `c2zinfo`, whose stream holds the matching local
header (flag bits `0x40`, name `"a"`, no extra field). -/
def c2arch : ZipFileSt :=
  { file := localHeader 0x40 5 5 0 [97] [], fp := true, fpRealPos := 0,
    streamClosed := false, fileRefCnt := 1, filelist := [c2zinfo],
    start_dir := 31 }

/-- Like `c2zinfo` but with no flag bits set, so `open`'s earlier checks all
pass and the overlap guard itself is reached. -/
def c2zinfo2 : ZipInfo :=
  { orig_filename := [97], filename := [97], compress_size := 5,
    end_offset := some 0 }

/-- A fresh shared handle over the local header matching `c2zinfo2`. -/
def c2zef : SharedFile := { file := localHeader 0 5 5 0 [97] [] }

/-- A two-entry archive: entry `"a"` has a well-formed local header at offset
`0` with one byte of data, while entry `"b"`'s recorded `header_offset` of
`32` points into the central directory, so opening `"b"` fails the local
magic check. -/
def c5bytes : List Nat :=
  localHeader 0x800 1 1 (crc32 [65] 0) [97] [] ++ [65] ++
    cdRecord 0x800 1 1 (crc32 [65] 0) [97] [] 0 ++
    cdRecord 0x800 1 1 (crc32 [65] 0) [98] [] 32 ++
    eocdRecord 2 94 32

/-- The archive state produced by `open_archive` on `c5bytes`. -/
def c5arch : ZipFileSt :=
  match openArchive c5bytes with
  | .ok r => r
  | .error _ => default

/-- The parsed directory entry for `"a"` in `c5arch`. -/
def c5ainfo : ZipInfo := (nameToInfoGet c5arch.filelist [97]).getD default

/-- A single-entry archive whose directory declares `file_size = 3` for an
entry whose stored data is a single byte (`compress_size = 1`): nothing in
the parser cross-checks the two sizes. -/
def c7bytes : List Nat :=
  localHeader 0x800 1 3 (crc32 [65] 0) [97] [] ++ [65] ++
    cdRecord 0x800 1 3 (crc32 [65] 0) [97] [] 0 ++
    eocdRecord 1 47 32

/-- The archive state produced by `open_archive` on `c7bytes`. -/
def c7arch : ZipFileSt :=
  match openArchive c7bytes with
  | .ok r => r
  | .error _ => default

/-- The extraction stream obtained by opening `c7bytes`'s entry. -/
def c7ext : ZipExtSt :=
  match (zopen c7arch [97]).2 with
  | .ok e => e
  | .error _ => initZipExtFile { file := [] } {}

/-- The raw (pre-clamp) seek target for `offset`/`whence`, mirroring the
`whence` dispatch of `ZipExtFile.seek` (`None` for an invalid `whence`). -/
def seekTarget (st : ZipExtSt) (offset : Int) (whence : Nat) : Option Int :=
  match whence with
  | 0 => some offset
  | 1 => some (tellVal st + offset)
  | 2 => some (st.orig_file_size + offset)
  | _ => none

/-- The two sequential clamps of `ZipExtFile.seek`: first down to
`_orig_file_size`, then up to `0`. -/
def clampPos (st : ZipExtSt) (p : Int) : Int :=
  let a := if p > st.orig_file_size then st.orig_file_size else p
  if a < 0 then 0 else a

/-! ## Theorems -/

theorem leVal_leBytes (n v : Nat) (h : v < 256 ^ n) : leVal (leBytes n v) = v := by
  induction n generalizing v with
  | zero => simp [leBytes, leVal]; omega
  | succ n ih =>
    rw [leBytes, leVal, ih (v / 256) (by rw [pow_succ] at h; omega)]
    omega

theorem leBytes_length (n v : Nat) : (leBytes n v).length = n := by
  induction n generalizing v with
  | zero => rfl
  | succ n ih => simp [leBytes, ih]

/-- The loop on an empty extra field returns the entry unchanged. -/
theorem decodeExtraLoop_nil (fuel : Nat) (z : ZipInfo) (crc : Nat) :
    decodeExtraLoop fuel z [] crc = .ok z := by
  cases fuel with
  | zero => rfl
  | succ n =>
    rw [decodeExtraLoop]
    simp

/-- A single extra-field record is decoded by one pass of the loop. -/
theorem decodeExtraLoop_single (fuel : Nat) (z : ZipInfo) (tp : Nat)
    (payload : List Nat) (crc : Nat) (htp : tp < 65536)
    (hlen : payload.length < 65536) :
    decodeExtraLoop (fuel + 2) z
        (leBytes 2 tp ++ leBytes 2 payload.length ++ payload) crc =
      decodeExtraRecord z tp payload crc := by
  have hexp : leBytes 2 tp ++ leBytes 2 payload.length ++ payload =
      tp % 256 :: (tp / 256 % 256) :: (payload.length % 256) ::
        (payload.length / 256 % 256) :: payload := by
    simp [leBytes]
  rw [hexp, decodeExtraLoop]
  rw [if_pos (by simp)]
  have htp' : fld (tp % 256 :: (tp / 256 % 256) :: (payload.length % 256) ::
      (payload.length / 256 % 256) :: payload) 0 2 = tp % 256 + 256 * (tp / 256 % 256) := by
    simp [fld, getBytes, leVal]
  have hln : fld (tp % 256 :: (tp / 256 % 256) :: (payload.length % 256) ::
      (payload.length / 256 % 256) :: payload) 2 2 =
      payload.length % 256 + 256 * (payload.length / 256 % 256) := by
    simp [fld, getBytes, leVal]
  have etp : tp % 256 + 256 * (tp / 256 % 256) = tp := by omega
  have eln : payload.length % 256 + 256 * (payload.length / 256 % 256) =
      payload.length := by omega
  rw [htp', hln, etp, eln]
  rw [if_neg (by simp)]
  have hpl : getBytes (tp % 256 :: (tp / 256 % 256) :: (payload.length % 256) ::
      (payload.length / 256 % 256) :: payload) 4 payload.length = payload := by
    simp [getBytes]
  have hdrop : (tp % 256 :: (tp / 256 % 256) :: (payload.length % 256) ::
      (payload.length / 256 % 256) :: payload).drop (payload.length + 4) = [] := by
    simp [List.drop_succ_cons]
  rw [hpl, hdrop]
  cases hrec : decodeExtraRecord z tp payload crc with
  | error e => rfl
  | ok z' => exact decodeExtraLoop_nil (fuel + 1) z' crc

/-- **C8** (amended statement equals the claim; this confirms it): decoding a
single zip64 (type `0x0001`) extra-field record overrides `file_size`,
`compress_size` and `header_offset` progressively, and only for fields whose
value was the 32-bit sentinel `0xFFFFFFFF` (additionally
`0xFFFFFFFFFFFFFFFF` for `file_size`); each override consumes 8
little-endian payload bytes; a flagged field whose 8 bytes are missing is a
fatal corrupt-zip64 error naming that field, and unflagged fields (and all
other entry metadata) are unchanged. -/
theorem zip64_extra_progressive_override (z : ZipInfo) (payload : List Nat)
    (filename_crc : Nat)
    (hex : z.extra = leBytes 2 1 ++ leBytes 2 payload.length ++ payload)
    (hlen : payload.length < 65536) :
    (zip64Need z ≤ payload.length →
      decodeExtra z filename_crc = .ok { z with
        file_size := if zip64FsFlag z then fld payload 0 8 else z.file_size,
        compress_size :=
          if zip64CsFlag z then fld payload (zip64CsOff z) 8 else z.compress_size,
        header_offset :=
          if zip64HoFlag z then ((fld payload (zip64HoOff z) 8 : Nat) : Int)
          else z.header_offset }) ∧
    (zip64FsFlag z → payload.length < 8 →
      decodeExtra z filename_crc =
        .error (.badZipFile (.corruptZip64 fileSizeField))) ∧
    (zip64CsFlag z → (zip64FsFlag z → 8 ≤ payload.length) →
      payload.length < zip64CsOff z + 8 →
      decodeExtra z filename_crc =
        .error (.badZipFile (.corruptZip64 compressSizeField))) ∧
    (zip64HoFlag z → (zip64FsFlag z → 8 ≤ payload.length) →
      (zip64CsFlag z → zip64CsOff z + 8 ≤ payload.length) →
      payload.length < zip64HoOff z + 8 →
      decodeExtra z filename_crc =
        .error (.badZipFile (.corruptZip64 headerOffsetField))) := by
  have hrec : decodeExtra z filename_crc = decodeExtraRecord z 1 payload filename_crc := by
    have hl : (leBytes 2 1 ++ leBytes 2 payload.length ++ payload).length + 1 =
        (payload.length + 3) + 2 := by
      simp [leBytes_length]
      omega
    rw [decodeExtra, hex, hl]
    exact decodeExtraLoop_single (payload.length + 3) z 1 payload filename_crc
      (by omega) hlen
  rw [hrec]
  clear hrec hex
  by_cases hf1 : z.file_size = 0xFFFFFFFFFFFFFFFF ∨ z.file_size = 0xFFFFFFFF <;>
    by_cases hf2 : z.compress_size = 0xFFFFFFFF <;>
      by_cases hf3 : z.header_offset = (0xFFFFFFFF : Int) <;>
        refine ⟨?_, ?_, ?_, ?_⟩ <;>
          intros <;>
            simp_all [decodeExtraRecord, zip64FsFlag, zip64CsFlag, zip64HoFlag,
              zip64CsOff, zip64HoOff, zip64Need] <;>
              first
                | rfl
                | omega
                | (split_ifs <;>
                    (try simp_all [fld, getBytes, List.drop_drop]) <;>
                      first | rfl | omega)

/-- Witness for C8: a concrete entry whose `file_size` and `header_offset`
carry sentinels (but not `compress_size`) has exactly those two fields
recovered from the 16-byte zip64 payload. -/
theorem zip64_extra_progressive_override_witness :
    decodeExtra
      { extra := leBytes 2 1 ++ leBytes 2 16 ++ (leBytes 8 4294967296 ++ leBytes 8 77),
        file_size := 0xFFFFFFFF, compress_size := 5,
        header_offset := (0xFFFFFFFF : Int) } 0 =
      .ok { extra := leBytes 2 1 ++ leBytes 2 16 ++ (leBytes 8 4294967296 ++ leBytes 8 77),
            file_size := 4294967296, compress_size := 5, header_offset := (77 : Int) } := by
  have h := (zip64_extra_progressive_override
    { extra := leBytes 2 1 ++ leBytes 2 16 ++ (leBytes 8 4294967296 ++ leBytes 8 77),
      file_size := 0xFFFFFFFF, compress_size := 5, header_offset := (0xFFFFFFFF : Int) }
    (leBytes 8 4294967296 ++ leBytes 8 77) 0 (by decide) (by decide)).1 (by decide)
  rw [h]
  rfl

/-- `decodeExtraRecord` on a unicode-path record, in solved form. -/
theorem decodeExtraRecord_unicode (z : ZipInfo) (payload : List Nat) (crc : Nat) :
    decodeExtraRecord z 0x7075 payload crc =
      if payload.length < 5 then .error (.badZipFile .corruptUnicodeExtra)
      else if payload.headD 0 = 1 ∧ fld payload 1 4 = crc then
        match utf8Decode (payload.drop 5) with
        | none => .error (.badZipFile .corruptUnicodeExtraUtf8)
        | some nm =>
          if nm ≠ [] then .ok { z with filename := sanitizeFilename nm } else .ok z
      else .ok z := by
  simp only [decodeExtraRecord]
  norm_num

/-- **C10, counterexample to the claim as stated**: a unicode-path record
whose embedded CRC-32 matches the raw original filename and whose embedded
name is non-empty valid UTF-8, but whose version byte is `2`, leaves the
filename unchanged and raises no error — the source additionally requires
`up_version == 1`, which the claim omits. -/
theorem unicode_path_extra_field_counterexample :
    decodeExtra
      { orig_filename := [97], filename := [97],
        extra := leBytes 2 0x7075 ++ leBytes 2 6 ++
          ([2] ++ leBytes 4 (crc32 [97]) ++ [98]) } (crc32 [97]) =
      .ok { orig_filename := [97], filename := [97],
            extra := leBytes 2 0x7075 ++ leBytes 2 6 ++
              ([2] ++ leBytes 4 (crc32 [97]) ++ [98]) } ∧
    ([97] : List Nat) ≠ sanitizeFilename [98] := by
  refine ⟨?_, by decide⟩
  have h := decodeExtraLoop_single 9
    { orig_filename := [97], filename := [97],
      extra := leBytes 2 0x7075 ++ leBytes 2 6 ++
        ([2] ++ leBytes 4 (crc32 [97]) ++ [98]) }
    0x7075 ([2] ++ leBytes 4 (crc32 [97]) ++ [98]) (crc32 [97])
    (by decide) (by decide)
  rw [decodeExtra]
  exact h.trans rfl

/-- **C10 (amended)**: decoding a single unicode-path (type `0x7075`)
extra-field record replaces the filename with the sanitized UTF-8 decoding
of the embedded name exactly when the record's version byte is `1`, its
embedded CRC-32 equals the CRC-32 of the raw original filename, and the
decoded name is non-empty; a version or CRC mismatch silently keeps the
current filename and raises no error; a record too short for its version
byte and CRC is a fatal corrupt-extra-field error, and (when version is 1
and the CRC matches) embedded bytes that are not valid UTF-8 are likewise
fatal. -/
theorem unicode_path_extra_field (z : ZipInfo) (payload : List Nat) (crc : Nat)
    (hex : z.extra = leBytes 2 0x7075 ++ leBytes 2 payload.length ++ payload)
    (hlen : payload.length < 65536) :
    (payload.length < 5 →
      decodeExtra z crc = .error (.badZipFile .corruptUnicodeExtra)) ∧
    (5 ≤ payload.length → payload.headD 0 = 1 → fld payload 1 4 = crc →
      (utf8Decode (payload.drop 5) = none →
        decodeExtra z crc = .error (.badZipFile .corruptUnicodeExtraUtf8)) ∧
      (∀ nm, utf8Decode (payload.drop 5) = some nm →
        decodeExtra z crc =
          .ok (if nm ≠ [] then { z with filename := sanitizeFilename nm } else z))) ∧
    (5 ≤ payload.length → ¬(payload.headD 0 = 1 ∧ fld payload 1 4 = crc) →
      decodeExtra z crc = .ok z) := by
  have hrec : decodeExtra z crc = decodeExtraRecord z 0x7075 payload crc := by
    have hl : (leBytes 2 0x7075 ++ leBytes 2 payload.length ++ payload).length + 1 =
        (payload.length + 3) + 2 := by
      simp [leBytes_length]
      omega
    rw [decodeExtra, hex, hl]
    exact decodeExtraLoop_single (payload.length + 3) z 0x7075 payload crc
      (by omega) hlen
  rw [hrec]
  clear hrec hex
  rw [decodeExtraRecord_unicode]
  refine ⟨?_, ?_, ?_⟩
  · intro hshort
    rw [if_pos hshort]
  · intro h5 hver hcrc
    constructor
    · intro hbad
      rw [if_neg (by omega), if_pos ⟨hver, hcrc⟩, hbad]
    · intro nm hnm
      rw [if_neg (by omega), if_pos ⟨hver, hcrc⟩, hnm]
      show (if nm ≠ [] then Except.ok { z with filename := sanitizeFilename nm }
            else Except.ok z) =
          Except.ok (if nm ≠ [] then { z with filename := sanitizeFilename nm } else z)
      split_ifs <;> rfl
  · intro h5 hmis
    rw [if_neg (by omega), if_neg hmis]

/-- Witness for the amended C10: a version-1 record with matching CRC and
embedded name `"b"` renames the entry from `"a"` to `"b"`. -/
theorem unicode_path_extra_field_witness :
    decodeExtra
      { orig_filename := [97], filename := [97],
        extra := leBytes 2 0x7075 ++ leBytes 2 6 ++
          ([1] ++ leBytes 4 (crc32 [97]) ++ [98]) } (crc32 [97]) =
      .ok { orig_filename := [97], filename := [98],
            extra := leBytes 2 0x7075 ++ leBytes 2 6 ++
              ([1] ++ leBytes 4 (crc32 [97]) ++ [98]) } := by
  have h := (((unicode_path_extra_field
    { orig_filename := [97], filename := [97],
      extra := leBytes 2 0x7075 ++ leBytes 2 6 ++
        ([1] ++ leBytes 4 (crc32 [97]) ++ [98]) }
    ([1] ++ leBytes 4 (crc32 [97]) ++ [98]) (crc32 [97])
    (by decide) (by decide)).2.1 (by decide) (by decide) (by decide)).2
    [98] (by decide))
  rw [h]
  rfl

theorem getBytes_length (bs : List Nat) (p n : Nat) :
    (getBytes bs p n).length = min n (bs.length - p) := by
  simp [getBytes]

/-- **C9, counterexample to the claim as stated**: a 42-byte stream holding a
well-formed single-disk zip64 locator directly followed by the EOCD — i.e. a
file too short to contain the zip64 EOCD itself, the "truncated zip64 EOCD"
case — makes the probe raise `OSError` (the second seek is unguarded) rather
than silently returning the 32-bit record. -/
theorem endRecData64_truncated_counterexample :
    _EndRecData64
      ((sigEndArchive64Locator ++ leBytes 4 0 ++ leBytes 8 0 ++ leBytes 4 1) ++
        eocdRecord 0 0 0) (-22)
      { sig := sigEndArchive, disk_num := 0, disk_dir := 0, dircount := 0,
        dircount2 := 0, dirsize := 0, diroffset := 0, comment_size := 0,
        comment := [], location := 20 } = .error .osError := by
  rfl

/-- **C9 (amended)**: after a plain EOCD is located, the zip64 probe
dispatches as follows: a locator that would lie before the start of the
stream, or whose signature is wrong, silently yields the 32-bit record; a
well-formed locator with a nonzero disk number or more than one disk is a
fatal multi-disk error; a well-formed single-disk locator whose zip64 EOCD
would lie before the start of the stream raises `OSError` (it does *not*
fall back); a zip64 EOCD with a wrong signature silently yields the 32-bit
record; and a well-formed zip64 EOCD overrides the signature, disk numbers,
entry counts, directory size and directory offset with the 64-bit values. -/
theorem endRecData64_dispatch (bs : List Nat) (offset : Int) (endrec : Endrec)
    (hoff : offset ≤ -22) :
    ((bs.length : Int) + (offset - 20) < 0 →
      _EndRecData64 bs offset endrec = .ok endrec) ∧
    (0 ≤ (bs.length : Int) + (offset - 20) →
      (getBytes bs ((bs.length : Int) + (offset - 20)).toNat 20).take 4 ≠
          sigEndArchive64Locator →
      _EndRecData64 bs offset endrec = .ok endrec) ∧
    (0 ≤ (bs.length : Int) + (offset - 20) →
      (getBytes bs ((bs.length : Int) + (offset - 20)).toNat 20).take 4 =
          sigEndArchive64Locator →
      (fld (getBytes bs ((bs.length : Int) + (offset - 20)).toNat 20) 4 4 ≠ 0 ∨
        fld (getBytes bs ((bs.length : Int) + (offset - 20)).toNat 20) 16 4 > 1) →
      _EndRecData64 bs offset endrec = .error (.badZipFile .multiDisk)) ∧
    (0 ≤ (bs.length : Int) + (offset - 20) →
      (getBytes bs ((bs.length : Int) + (offset - 20)).toNat 20).take 4 =
          sigEndArchive64Locator →
      fld (getBytes bs ((bs.length : Int) + (offset - 20)).toNat 20) 4 4 = 0 →
      fld (getBytes bs ((bs.length : Int) + (offset - 20)).toNat 20) 16 4 ≤ 1 →
      (bs.length : Int) + (offset - 76) < 0 →
      _EndRecData64 bs offset endrec = .error .osError) ∧
    (0 ≤ (bs.length : Int) + (offset - 20) →
      (getBytes bs ((bs.length : Int) + (offset - 20)).toNat 20).take 4 =
          sigEndArchive64Locator →
      fld (getBytes bs ((bs.length : Int) + (offset - 20)).toNat 20) 4 4 = 0 →
      fld (getBytes bs ((bs.length : Int) + (offset - 20)).toNat 20) 16 4 ≤ 1 →
      0 ≤ (bs.length : Int) + (offset - 76) →
      ((getBytes bs ((bs.length : Int) + (offset - 76)).toNat 56).take 4 ≠
          sigEndArchive64 →
        _EndRecData64 bs offset endrec = .ok endrec) ∧
      ((getBytes bs ((bs.length : Int) + (offset - 76)).toNat 56).take 4 =
          sigEndArchive64 →
        _EndRecData64 bs offset endrec = .ok { endrec with
          sig := (getBytes bs ((bs.length : Int) + (offset - 76)).toNat 56).take 4
          disk_num := fld (getBytes bs ((bs.length : Int) + (offset - 76)).toNat 56) 16 4
          disk_dir := fld (getBytes bs ((bs.length : Int) + (offset - 76)).toNat 56) 20 4
          dircount := fld (getBytes bs ((bs.length : Int) + (offset - 76)).toNat 56) 24 8
          dircount2 := fld (getBytes bs ((bs.length : Int) + (offset - 76)).toNat 56) 32 8
          dirsize := fld (getBytes bs ((bs.length : Int) + (offset - 76)).toNat 56) 40 8
          diroffset := fld (getBytes bs ((bs.length : Int) + (offset - 76)).toNat 56) 48 8 })) := by
  have hlen20 : 0 ≤ (bs.length : Int) + (offset - 20) →
      (getBytes bs ((bs.length : Int) + (offset - 20)).toNat 20).length = 20 := by
    intro h0
    rw [getBytes_length]
    omega
  have hlen56 : 0 ≤ (bs.length : Int) + (offset - 76) →
      (getBytes bs ((bs.length : Int) + (offset - 76)).toNat 56).length = 56 := by
    intro h0
    rw [getBytes_length]
    omega
  refine ⟨?_, ?_, ?_, ?_, ?_⟩
  · intro h0
    simp only [_EndRecData64]
    rw [if_pos h0]
  · intro h0 hsig
    simp only [_EndRecData64]
    rw [if_neg (by omega), if_neg (by rw [hlen20 h0]; simp), if_pos hsig]
  · intro h0 hsig hdisk
    simp only [_EndRecData64]
    rw [if_neg (by omega), if_neg (by rw [hlen20 h0]; simp), if_neg (by simp [hsig]),
      if_pos hdisk]
  · intro h0 hsig hd1 hd2 h76
    simp only [_EndRecData64]
    rw [if_neg (by omega), if_neg (by rw [hlen20 h0]; simp), if_neg (by simp [hsig]),
      if_neg (by omega), if_pos h76]
  · intro h0 hsig hd1 hd2 h76
    constructor
    · intro hz
      simp only [_EndRecData64]
      rw [if_neg (by omega), if_neg (by rw [hlen20 h0]; simp), if_neg (by simp [hsig]),
        if_neg (by omega), if_neg (by omega), if_neg (by rw [hlen56 h76]; simp),
        if_pos hz]
    · intro hz
      simp only [_EndRecData64]
      rw [if_neg (by omega), if_neg (by rw [hlen20 h0]; simp), if_neg (by simp [hsig]),
        if_neg (by omega), if_neg (by omega), if_neg (by rw [hlen56 h76]; simp),
        if_neg (by simp [hz])]

/-- Witness for the amended C9: a concrete 98-byte stream whose zip64
EOCD precedes a well-formed locator has the 64-bit entry count, directory
size and directory offset take effect. -/
theorem endRecData64_dispatch_witness :
    _EndRecData64
      ((sigEndArchive64 ++ leBytes 8 44 ++ leBytes 2 45 ++ leBytes 2 46 ++
        leBytes 4 0 ++ leBytes 4 0 ++ leBytes 8 3 ++ leBytes 8 3 ++
        leBytes 8 138 ++ leBytes 8 500) ++
       (sigEndArchive64Locator ++ leBytes 4 0 ++ leBytes 8 0 ++ leBytes 4 1) ++
       eocdRecord 0 0 0) (-22)
      { sig := sigEndArchive, disk_num := 9, disk_dir := 9, dircount := 9,
        dircount2 := 9, dirsize := 9, diroffset := 9, comment_size := 0,
        comment := [], location := 76 } =
      .ok { sig := sigEndArchive64, disk_num := 0, disk_dir := 0, dircount := 3,
            dircount2 := 3, dirsize := 138, diroffset := 500, comment_size := 0,
            comment := [], location := 76 } := by
  have h := ((endRecData64_dispatch
    ((sigEndArchive64 ++ leBytes 8 44 ++ leBytes 2 45 ++ leBytes 2 46 ++
      leBytes 4 0 ++ leBytes 4 0 ++ leBytes 8 3 ++ leBytes 8 3 ++
      leBytes 8 138 ++ leBytes 8 500) ++
     (sigEndArchive64Locator ++ leBytes 4 0 ++ leBytes 8 0 ++ leBytes 4 1) ++
     eocdRecord 0 0 0) (-22)
    { sig := sigEndArchive, disk_num := 9, disk_dir := 9, dircount := 9,
      dircount2 := 9, dirsize := 9, diroffset := 9, comment_size := 0,
      comment := [], location := 76 }
    (by decide)).2.2.2.2 (by decide) (by decide) (by decide) (by decide)
    (by decide)).2 (by decide)
  rw [h]
  rfl

theorem sweepIdx_map_fst (e : Int) (L : List (Nat × ZipInfo)) :
    (sweepIdx e L).map Prod.fst = L.map Prod.fst := by
  induction L generalizing e with
  | nil => rfl
  | cons q t ih =>
    obtain ⟨i, z⟩ := q
    simp [sweepIdx, ih]

theorem sweepIdx_mem (e : Int) (L : List (Nat × ZipInfo)) (i : Nat) (z' : ZipInfo)
    (h : (i, z') ∈ sweepIdx e L) :
    ∃ z eo, (i, z) ∈ L ∧ z' = { z with end_offset := some eo } := by
  induction L generalizing e with
  | nil => simp [sweepIdx] at h
  | cons q t ih =>
    obtain ⟨j, w⟩ := q
    simp only [sweepIdx, List.mem_cons] at h
    rcases h with h | h
    · cases h
      exact ⟨w, e, by simp, rfl⟩
    · obtain ⟨z, eo, hm, hz⟩ := ih w.header_offset h
      exact ⟨z, eo, by simp [hm], hz⟩

/-- Every `end_offset` the sweep assigns is bounded by the running bound when
all remaining header offsets are. -/
theorem sweepIdx_eo_le (e : Int) (L : List (Nat × ZipInfo))
    (hs : L.Pairwise hoDescRel) (hb : ∀ q ∈ L, q.2.header_offset ≤ e) :
    ∀ p ∈ sweepIdx e L, ∀ eo, p.2.end_offset = some eo → eo ≤ e := by
  induction L generalizing e with
  | nil => simp [sweepIdx]
  | cons q t ih =>
    obtain ⟨i, z⟩ := q
    simp only [sweepIdx, List.mem_cons] at *
    rintro p (rfl | hp) eo heo
    · simp at heo
      omega
    · have hsz := List.pairwise_cons.1 hs
      have h1 : ∀ q ∈ t, q.2.header_offset ≤ z.header_offset := fun q hq => hsz.1 q hq
      have h2 := ih z.header_offset hsz.2 h1 p hp eo heo
      have h3 : z.header_offset ≤ e := hb (i, z) (Or.inl rfl)
      omega

theorem ivDisjoint_symm {a b : ZipInfo} (h : ivDisjoint a b) : ivDisjoint b a := by
  intro ea eb hea heb x hx
  exact h eb ea heb hea x ⟨hx.2.2.1, hx.2.2.2, hx.1, hx.2.1⟩

/-- Over a descending-sorted list the sweep produces pairwise disjoint
extents. -/
theorem sweepIdx_pairwise_disjoint (e : Int) (L : List (Nat × ZipInfo))
    (hs : L.Pairwise hoDescRel) :
    (sweepIdx e L).Pairwise (fun p q => ivDisjoint p.2 q.2) := by
  induction L generalizing e with
  | nil => simp [sweepIdx]
  | cons q t ih =>
    obtain ⟨i, z⟩ := q
    have hsz := List.pairwise_cons.1 hs
    simp only [sweepIdx]
    refine List.pairwise_cons.2 ⟨?_, ih z.header_offset hsz.2⟩
    intro p hp
    intro ea eb hea heb x hx
    have hble := sweepIdx_eo_le z.header_offset t hsz.2
      (fun q hq => hsz.1 q hq) p hp eb heb
    simp at hea
    -- head extent starts at z.header_offset; every tail extent ends by then
    have hxa : z.header_offset ≤ x := hx.1
    have hxb : x < eb := hx.2.2.2
    omega

/-- Over a strictly-descending list with head offsets below `e`, every swept
entry gets `end_offset` strictly above its own `header_offset`. -/
theorem sweepIdx_strict (e : Int) (L : List (Nat × ZipInfo))
    (hs : L.Pairwise (fun a b => b.2.header_offset < a.2.header_offset))
    (hb : ∀ q ∈ L, q.2.header_offset < e) :
    ∀ p ∈ sweepIdx e L, ∀ eo, p.2.end_offset = some eo →
      p.2.header_offset < eo := by
  induction L generalizing e with
  | nil => simp [sweepIdx]
  | cons q t ih =>
    obtain ⟨i, z⟩ := q
    have hsz := List.pairwise_cons.1 hs
    simp only [sweepIdx, List.mem_cons]
    rintro p (rfl | hp) eo heo
    · simp at heo ⊢
      subst heo
      exact hb (i, z) (by simp)
    · exact ih z.header_offset hsz.2 (fun q hq => hsz.1 q hq) p hp eo heo

theorem assignEndOffsets_length (l : List ZipInfo) (sd : Int) :
    (assignEndOffsets l sd).length = l.length := by
  simp [assignEndOffsets]

/-- Each slot of `assignEndOffsets` holds the swept copy of the entry with
that index. -/
theorem assignEndOffsets_getElem (l : List ZipInfo) (sd : Int) (i : Nat)
    (hi : i < l.length) :
    ∃ p ∈ sweepIdx sd (List.insertionSort hoDescRel l.enum),
      p.1 = i ∧
      (assignEndOffsets l sd).get
        ⟨i, by rw [assignEndOffsets_length]; exact hi⟩ = p.2 := by
  have hperm : List.Perm (List.insertionSort hoDescRel l.enum) l.enum :=
    List.perm_insertionSort hoDescRel l.enum
  have hmem : i ∈ (sweepIdx sd (List.insertionSort hoDescRel l.enum)).map Prod.fst := by
    rw [sweepIdx_map_fst]
    have : i ∈ l.enum.map Prod.fst := by
      rw [List.enum_map_fst]
      exact List.mem_range.2 hi
    exact (hperm.map Prod.fst).mem_iff.2 this
  obtain ⟨p, hp, hpi⟩ := List.mem_map.1 hmem
  have hfind : (sweepIdx sd (List.insertionSort hoDescRel l.enum)).find?
      (fun q => q.1 == i) ≠ none := by
    intro hnone
    have := List.find?_eq_none.1 hnone p hp
    simp [hpi] at this
  obtain ⟨p', hfind'⟩ := Option.ne_none_iff_exists'.1 hfind
  have hp'mem := List.mem_of_find?_eq_some hfind'
  have hp'i : p'.1 = i := by
    have := List.find?_some hfind'
    simpa using this
  refine ⟨p', hp'mem, hp'i, ?_⟩
  rw [List.get_eq_getElem]
  simp only [assignEndOffsets]
  rw [List.getElem_map, List.getElem_enum]
  dsimp only
  rw [hfind']

/-- Every element of `assignEndOffsets` is the payload of some swept pair. -/
theorem assignEndOffsets_mem (l : List ZipInfo) (sd : Int) (z : ZipInfo)
    (hz : z ∈ assignEndOffsets l sd) :
    ∃ p ∈ sweepIdx sd (List.insertionSort hoDescRel l.enum), z = p.2 := by
  obtain ⟨i, hi, hzi⟩ := List.mem_iff_getElem.1 hz
  have hi' : i < l.length := by
    rw [assignEndOffsets_length] at hi
    exact hi
  obtain ⟨p, hpmem, hpi, hpe⟩ := assignEndOffsets_getElem l sd i hi'
  rw [List.get_eq_getElem] at hpe
  exact ⟨p, hpmem, by rw [← hzi, hpe]⟩

/-- A pair of the sorted indexed list is an entry of `enum`: its payload is
the entry at its index. -/
theorem sorted_enum_payload (l : List ZipInfo) (p : Nat × ZipInfo)
    (hp : p ∈ List.insertionSort hoDescRel l.enum) :
    l[p.1]? = some p.2 := by
  have hperm : List.Perm (List.insertionSort hoDescRel l.enum) l.enum :=
    List.perm_insertionSort hoDescRel l.enum
  have := hperm.mem_iff.1 hp
  exact List.mem_enum_iff_getElem?.1 this

/-- The sweep leaves `header_offset` (indeed everything but `end_offset`)
unchanged, so `assignEndOffsets` preserves each slot's `header_offset`. -/
theorem assignEndOffsets_ho (l : List ZipInfo) (sd : Int) (i : Nat)
    (hi : i < l.length) :
    ((assignEndOffsets l sd).get
        ⟨i, by rw [assignEndOffsets_length]; exact hi⟩).header_offset =
      (l.get ⟨i, hi⟩).header_offset := by
  obtain ⟨p, hpmem, hpi, hpe⟩ := assignEndOffsets_getElem l sd i hi
  obtain ⟨pi, pz⟩ := p
  obtain ⟨z0, eo, hz0mem, hz0⟩ := sweepIdx_mem sd _ pi pz hpmem
  have hpay := sorted_enum_payload l (pi, z0) hz0mem
  simp only at hpi
  subst hpi
  rw [hpe]
  simp only [hz0]
  have : l[pi]? = some (l.get ⟨pi, hi⟩) := by
    rw [List.get_eq_getElem]
    exact List.getElem?_eq_getElem hi
  rw [this] at hpay
  injection hpay with hpay
  rw [hpay]

/-- **C1, counterexample to the claim as stated**: `arcC1` is accepted by
`open_archive`, and its single entry has `end_offset = header_offset = 0`
(the entry's header offset coincides with `start_dir`), so the entry's
`end_offset` is *not* strictly greater than its `header_offset`. -/
theorem end_offset_sweep_counterexample :
    _RealGetContents arcC1 = .ok
      { filelist := [{ orig_filename := [], filename := [], flag_bits := 2048,
                       CRC := some 0, header_offset := 0, end_offset := some 0 }],
        start_dir := 0 } ∧
    ¬ (∀ z ∈ [({ orig_filename := [], filename := [], flag_bits := 2048,
                 CRC := some 0, header_offset := 0, end_offset := some 0 } : ZipInfo)],
        ∀ e, z.end_offset = some e → z.header_offset < e) := by
  refine ⟨rfl, ?_⟩
  intro hall
  have := hall _ (List.mem_singleton_self _) 0 rfl
  simp at this

/-- **C1 (amended)**: for every archive accepted by `open_archive`, the sweep
assigns every entry a computed `end_offset`, and the extents
`[header_offset, end_offset)` of the entries are pairwise non-overlapping;
moreover, when the entries' header offsets are pairwise distinct and all lie
below `start_dir`, every entry's `end_offset` strictly exceeds its
`header_offset`.  (Without those provisos the inequality can degenerate to
equality, see the counterexample.) -/
theorem end_offset_sweep_properties (bs : List Nat) (r : CDResult)
    (h : _RealGetContents bs = .ok r) :
    (∀ z ∈ r.filelist, z.end_offset.isSome) ∧
    r.filelist.Pairwise ivDisjoint ∧
    ((r.filelist.map ZipInfo.header_offset).Nodup →
      (∀ z ∈ r.filelist, z.header_offset < r.start_dir) →
      ∀ z ∈ r.filelist, ∀ e, z.end_offset = some e → z.header_offset < e) := by
  obtain ⟨l, hfl⟩ : ∃ entries, r.filelist = assignEndOffsets entries r.start_dir := by
    simp only [_RealGetContents] at h
    repeat' split at h
    all_goals try (injection h with h; exact ⟨_, by rw [← h]⟩)
    all_goals simp at h
  have hsorted : (List.insertionSort hoDescRel l.enum).Pairwise hoDescRel :=
    List.sorted_insertionSort hoDescRel l.enum
  refine ⟨?_, ?_, ?_⟩
  · -- every entry receives an end offset
    intro z hz
    rw [hfl] at hz
    obtain ⟨⟨pi, pz⟩, hpmem, hzp⟩ := assignEndOffsets_mem l r.start_dir z hz
    obtain ⟨z0, eo, _, hz0⟩ := sweepIdx_mem r.start_dir _ pi pz hpmem
    rw [hzp]
    simp only at hz0 ⊢
    rw [hz0]
    rfl
  · -- pairwise disjoint extents
    rw [hfl]
    have hpair := sweepIdx_pairwise_disjoint r.start_dir _ hsorted
    apply List.pairwise_iff_getElem.2
    intro i j hi hj hij
    have hi' : i < l.length := by rw [assignEndOffsets_length] at hi; exact hi
    have hj' : j < l.length := by rw [assignEndOffsets_length] at hj; exact hj
    obtain ⟨p, hpmem, hpi, hpe⟩ := assignEndOffsets_getElem l r.start_dir i hi'
    obtain ⟨q, hqmem, hqi, hqe⟩ := assignEndOffsets_getElem l r.start_dir j hj'
    obtain ⟨ki, hki, hski⟩ := List.mem_iff_getElem.1 hpmem
    obtain ⟨kj, hkj, hskj⟩ := List.mem_iff_getElem.1 hqmem
    have hkine : ki ≠ kj := by
      intro hk
      subst hk
      have hpq : p = q := by rw [← hski, hskj]
      rw [hpq, hqi] at hpi
      omega
    rw [List.get_eq_getElem] at hpe hqe
    rw [hpe, hqe]
    rcases Nat.lt_or_ge ki kj with hlt | hge
    · have hd := List.pairwise_iff_getElem.1 hpair ki kj hki hkj hlt
      rw [hski, hskj] at hd
      exact hd
    · have hlt2 : kj < ki := by omega
      have hd := List.pairwise_iff_getElem.1 hpair kj ki hkj hki hlt2
      rw [hski, hskj] at hd
      exact ivDisjoint_symm hd
  · -- strictness under distinct offsets below start_dir
    intro hnodup hbound z hz
    rw [hfl] at hz
    have hbl : ∀ i (hi : i < l.length),
        (l.get ⟨i, hi⟩).header_offset < r.start_dir := by
      intro i hi
      have hmem : (assignEndOffsets l r.start_dir).get
          ⟨i, by rw [assignEndOffsets_length]; exact hi⟩ ∈
          assignEndOffsets l r.start_dir := by
        rw [List.get_eq_getElem]
        exact List.getElem_mem _
      have hb := hbound _ (by rw [hfl]; exact hmem)
      rw [assignEndOffsets_ho l r.start_dir i hi] at hb
      exact hb
    have hmapeq : (assignEndOffsets l r.start_dir).map ZipInfo.header_offset =
        l.map ZipInfo.header_offset := by
      apply List.ext_getElem
      · simp [assignEndOffsets_length]
      · intro i h1 h2
        simp only [List.getElem_map]
        have := assignEndOffsets_ho l r.start_dir i (by simpa using h2)
        rw [List.get_eq_getElem, List.get_eq_getElem] at this
        exact this
    rw [hfl, hmapeq] at hnodup
    have hperm : List.Perm (List.insertionSort hoDescRel l.enum) l.enum :=
      List.perm_insertionSort hoDescRel l.enum
    have hsnd : List.Perm ((List.insertionSort hoDescRel l.enum).map
        (fun p => p.2.header_offset)) (l.map ZipInfo.header_offset) := by
      have h1 := hperm.map (fun p : Nat × ZipInfo => p.2.header_offset)
      have h2 : l.enum.map (fun p : Nat × ZipInfo => p.2.header_offset) =
          l.map ZipInfo.header_offset := by
        rw [show (fun p : Nat × ZipInfo => p.2.header_offset) =
            (ZipInfo.header_offset ∘ Prod.snd) from rfl, ← List.map_map,
          List.enum_map_snd]
      rw [h2] at h1
      exact h1
    have hnodup2 : ((List.insertionSort hoDescRel l.enum).map
        (fun p => p.2.header_offset)).Nodup := hsnd.nodup_iff.2 hnodup
    have hstrict : (List.insertionSort hoDescRel l.enum).Pairwise
        (fun a b => b.2.header_offset < a.2.header_offset) := by
      have hne := List.pairwise_map.1 hnodup2
      exact (hsorted.and hne).imp (fun h => lt_of_le_of_ne h.1 h.2.symm)
    have hbsorted : ∀ q ∈ List.insertionSort hoDescRel l.enum,
        q.2.header_offset < r.start_dir := by
      intro q hq
      have hpay := sorted_enum_payload l q hq
      have hq1 : q.1 < l.length := by
        by_contra hge
        rw [List.getElem?_eq_none (by omega)] at hpay
        simp at hpay
      have hg : l[q.1]? = some (l.get ⟨q.1, hq1⟩) := by
        rw [List.get_eq_getElem]
        exact List.getElem?_eq_getElem hq1
      rw [hg] at hpay
      injection hpay with hpay
      exact hpay ▸ hbl q.1 hq1
    have hZ := sweepIdx_strict r.start_dir _ hstrict hbsorted
    obtain ⟨⟨pi, pz⟩, hpmem, hzp⟩ := assignEndOffsets_mem l r.start_dir z hz
    intro e he
    rw [hzp] at he ⊢
    exact hZ (pi, pz) hpmem e he

/-- Witness for the amended C1: the well-formed archive `arcC1w` (one entry
at offset 0, central directory at 46) parses with `end_offset = 46 >
header_offset = 0`, and its extents are assigned as the theorem states. -/
theorem end_offset_sweep_properties_witness :
    _RealGetContents arcC1w = .ok
      { filelist := [{ orig_filename := [], filename := [], flag_bits := 2048,
                       CRC := some 0, header_offset := 0, end_offset := some 46 }],
        start_dir := 46 } ∧
    ({ orig_filename := [], filename := [], flag_bits := 2048, CRC := some 0,
       header_offset := 0, end_offset := some 46 } : ZipInfo).header_offset < 46 := by
  refine ⟨rfl, ?_⟩
  have h := (end_offset_sweep_properties arcC1w
    { filelist := [{ orig_filename := [], filename := [], flag_bits := 2048,
                     CRC := some 0, header_offset := 0, end_offset := some 46 }],
      start_dir := 46 } rfl).2.2
    (by decide)
    (by
      intro z hz
      rw [List.mem_singleton] at hz
      subst hz
      decide)
  exact h _ (List.mem_singleton_self _) 46 rfl

/-- **C6, counterexample to the claim as stated**: a handle whose recorded
position is 0 while the real stream sits at 10 resolves `seek(5, SEEK_CUR)`
to 15, not 5 — `_SharedFile.seek` does *not* restore the handle's recorded
position before seeking, so a relative seek is resolved against the real
stream's current position. -/
theorem sharedFile_seek_cur_counterexample :
    (sfSeek { file := List.replicate 20 0, realPos := 10, pos := 0 } 5 1).2 =
      .ok 15 ∧ (15 : Int) ≠ 0 + 5 := by
  exact ⟨rfl, by decide⟩

/-- **C6 (amended)**: `_SharedFile.read` seeks the real stream to the
handle's recorded position first (failing with `OSError` when that position
is negative), reads from there, and records the real stream's new position
in both cursors; `_SharedFile.seek`, by contrast, seeks the real stream
directly with the given offset and whence — so `SEEK_CUR` is resolved
against the real stream's current position (possibly moved by another
handle), not the handle's recorded position — and then records the result. -/
theorem sharedFile_read_seek (s : SharedFile) (n : Int) (offset : Int) :
    (0 ≤ s.pos →
      (sfRead s n).2 = .ok (if n < 0 then s.file.drop s.pos.toNat
                            else (s.file.drop s.pos.toNat).take n.toNat) ∧
      (sfRead s n).1.pos = s.pos +
        ((if n < 0 then s.file.drop s.pos.toNat
          else (s.file.drop s.pos.toNat).take n.toNat).length : Int) ∧
      (sfRead s n).1.realPos = (sfRead s n).1.pos) ∧
    (s.pos < 0 → (sfRead s n).2 = .error .osError) ∧
    (0 ≤ s.realPos + offset →
      (sfSeek s offset 1).2 = .ok (s.realPos + offset) ∧
      (sfSeek s offset 1).1.pos = s.realPos + offset ∧
      (sfSeek s offset 1).1.realPos = s.realPos + offset) := by
  refine ⟨?_, ?_, ?_⟩
  · intro hpos
    simp only [sfRead]
    rw [if_neg (by omega)]
    simp
  · intro hneg
    simp only [sfRead]
    rw [if_pos hneg]
  · intro hok
    simp only [sfSeek]
    norm_num
    rw [if_neg (by omega)]
    simp

/-- Witness for the amended C6: reading two bytes through a handle at
position 1 of a five-byte stream returns exactly those bytes and advances
only the handle's cursors. -/
theorem sharedFile_read_seek_witness :
    (sfRead { file := [7, 8, 9, 10, 11], realPos := 4, pos := 1 } 2).2 =
      .ok [8, 9] ∧
    (sfRead { file := [7, 8, 9, 10, 11], realPos := 4, pos := 1 } 2).1.pos = 3 ∧
    (sfSeek { file := [7, 8, 9, 10, 11], realPos := 4, pos := 1 } 2 1).2 =
      .ok 6 := by
  have h := sharedFile_read_seek
    { file := [7, 8, 9, 10, 11], realPos := 4, pos := 1 } 2 2
  refine ⟨?_, ?_, ?_⟩
  · rw [(h.1 (by decide)).1]
    rfl
  · rw [(h.1 (by decide)).2.1]
    rfl
  · rw [(h.2.2 (by decide)).1]
    rfl

/-- `_read2` on success: a prefix of the stream at the handle's position is
handed through unchanged; only the handle and `_compress_left` move, and an
empty result is only possible when no compressed bytes were owed. -/
theorem read2_ok_shape (st : ZipExtSt) (n : Int) (st2 : ZipExtSt)
    (data2 : List Nat) (h : read2 st n = (st2, .ok data2)) :
    st2.left = st.left ∧ st2.eof = st.eof ∧
    st2.expected_crc = st.expected_crc ∧ st2.running_crc = st.running_crc ∧
    st2.name = st.name ∧
    st2.compress_left = st.compress_left - data2.length ∧
    (∃ m, data2 = (st.fileobj.file.drop st.fileobj.pos.toNat).take m) ∧
    (data2 = [] → st.compress_left ≤ 0) := by
  simp only [read2] at h
  split at h
  · injection h with h1 h2
    injection h2 with h2
    subst h1
    refine ⟨rfl, rfl, rfl, rfl, rfl, by simp [← h2], ⟨0, by simp [← h2]⟩, fun _ => by
      assumption⟩
  · rename_i hcl
    simp only [sfRead] at h
    by_cases hpos : st.fileobj.pos < 0
    · rw [if_pos hpos] at h
      simp at h
    · rw [if_neg hpos] at h
      split at h
      · rename_i heq0
        injection heq0 with hq1 hq2
        simp at hq2
      · rename_i f0 data0 heq0
        injection heq0 with hq1 hq2
        injection hq2 with hq2
        split at h
        · simp at h
        · rename_i hne0
          injection h with h1 h2
          injection h2 with h2
          subst h2
          rw [← h1]
          have hn : ¬((n ⊔ 4096) ⊓ st.compress_left < 0) := by
            have h4 : (0 : Int) < n ⊔ 4096 := lt_sup_of_lt_right (by norm_num)
            omega
          rw [if_neg hn] at hq2
          refine ⟨rfl, rfl, rfl, rfl, rfl, by simp, ⟨_, hq2.symm⟩, ?_⟩
          intro hemp
          rw [hemp] at hne0
          simp at hne0

/-- `_update_crc` with tracking off is the identity. -/
theorem updateCrc_none (st : ZipExtSt) (x : List Nat)
    (h : st.expected_crc = none) : updateCrc st x = (st, .ok ()) := by
  simp [updateCrc, h]

/-- `_update_crc` with tracking on: accumulate, and fail exactly when `_eof`
is set and the total differs from the expected CRC. -/
theorem updateCrc_some (st : ZipExtSt) (x : List Nat) (c : Nat)
    (h : st.expected_crc = some c) :
    updateCrc st x = ({ st with running_crc := crc32 x st.running_crc },
      if st.eof = true ∧ crc32 x st.running_crc ≠ c then
        .error (.badZipFile (.badCrcFor st.name))
      else .ok ()) := by
  simp only [updateCrc, h]
  split_ifs with h1 h2 <;> simp_all

/-- When checksum tracking is active, the stream is at EOF, and the updated
running CRC disagrees with the expected one, `_update_crc` raises the
bad-checksum error (the state still records the new running CRC). -/
theorem updateCrc_fire (z : ZipExtSt) (x : List Nat) (c : Nat)
    (hexp : z.expected_crc = some c) (hf : z.eof = true)
    (hne : crc32 x z.running_crc ≠ c) :
    updateCrc z x = ({ z with running_crc := crc32 x z.running_crc },
      .error (.badZipFile (.badCrcFor z.name))) := by
  rw [updateCrc_some z x c hexp, if_pos ⟨hf, hne⟩]

/-- When checksum tracking is active but the trigger condition (EOF plus a
CRC mismatch) does not hold, `_update_crc` merely folds the new data into the
running CRC and returns normally. -/
theorem updateCrc_pass (z : ZipExtSt) (x : List Nat) (c : Nat)
    (hexp : z.expected_crc = some c)
    (hok : ¬(z.eof = true ∧ crc32 x z.running_crc ≠ c)) :
    updateCrc z x = ({ z with running_crc := crc32 x z.running_crc }, .ok ()) := by
  rw [updateCrc_some z x c hexp, if_neg hok]

/-- **C4 (confirmed)**: whatever the compression method recorded in the
entry's headers, `_read1` returns bytes of the underlying stream verbatim —
a contiguous slice starting at the shared handle's current position — only
clipped to the remaining uncompressed count `_left`; no decompression codec
exists anywhere in the embedded read path (`_read2` hands the handle's bytes
straight through). -/
theorem read_returns_verbatim_bytes (st : ZipExtSt) (n : Int) (st' : ZipExtSt)
    (data : List Nat) (h : read1 st n = (st', .ok data)) :
    ∃ k, data = (st.fileobj.file.drop st.fileobj.pos.toNat).take k ∧
      data.length ≤ st.left.toNat := by
  simp only [read1] at h
  split at h
  · injection h with h1 h2
    injection h2 with h2
    exact ⟨0, by simp [← h2]⟩
  · split at h
    · simp at h
    · rename_i st2 data2 heq
      have hdata : data = data2.take st2.left.toNat := by
        split at h
        · simp at h
        · injection h with h1 h2
          injection h2 with h2
          exact h2.symm
      obtain ⟨hleft, _, _, _, _, _, ⟨m, hm⟩, _⟩ := read2_ok_shape st _ st2 data2 heq
      refine ⟨min m st2.left.toNat, ?_, ?_⟩
      · rw [hdata, hm, List.take_take, Nat.min_comm]
      · rw [hdata, ← hleft]
        simp

/-- `_read2` can only fail with `OSError` (bad seek) or `EOFError` (stream
exhausted while compressed bytes were still owed) — never a checksum error. -/
theorem read_returns_verbatim_bytes_witness :
    ∃ k, [65, 66] = ((c4st.fileobj.file.drop c4st.fileobj.pos.toNat).take k) ∧
      ([65, 66] : List Nat).length ≤ c4st.left.toNat :=
  read_returns_verbatim_bytes c4st 2 c4res.1 [65, 66] rfl

theorem read2_error_shape (st : ZipExtSt) (n : Int) (st2 : ZipExtSt) (e : ZErr)
    (h : read2 st n = (st2, .error e)) : e = .osError ∨ e = .eofError := by
  simp only [read2] at h
  split at h
  · simp at h
  · simp only [sfRead] at h
    by_cases hpos : st.fileobj.pos < 0
    · rw [if_pos hpos] at h
      split at h
      · rename_i heq0
        injection heq0 with hq1 hq2
        injection hq2 with hq2
        injection h with h1 h2
        injection h2 with h2
        simp_all
      · rename_i heq0
        injection heq0 with hq1 hq2
        simp at hq2
    · rw [if_neg hpos] at h
      split at h
      · rename_i heq0
        injection heq0 with hq1 hq2
        simp at hq2
      · split at h
        · injection h with h1 h2
          injection h2 with h2
          simp_all
        · simp at h

/-- **C3 (confirmed)**: with checksum tracking active, `_read1` raises the
bad-checksum error only at the call during which end-of-stream is first
detected (a remaining counter reaching zero) with the accumulated CRC-32
differing from the expected one; and whenever such a call returns normally
with end-of-stream newly set, the accumulated CRC-32 equals the expected
one.  In particular no call that leaves both counters positive ever raises
a checksum error: the check is deferred exactly until EOF. -/
theorem crc_checked_only_at_eof (st st' : ZipExtSt) (n : Int) (c : Nat)
    (hc : st.expected_crc = some c) :
    (∀ e, read1 st n = (st', .error e) →
      e = .badZipFile (.badCrcFor st.name) →
      st.eof = false ∧ st'.eof = true ∧
      (st'.compress_left ≤ 0 ∨ st'.left ≤ 0) ∧ st'.running_crc ≠ c) ∧
    (∀ data, read1 st n = (st', .ok data) → st.eof = false →
      st'.eof = true → st'.running_crc = c) := by
  constructor
  · intro e h hbad
    subst hbad
    simp only [read1] at h
    split at h
    · simp at h
    · rename_i hcond
      have heof : st.eof = false := by
        cases hb : st.eof
        · rfl
        · exact absurd (Or.inl hb) hcond
      refine ⟨heof, ?_⟩
      split at h
      · -- `_read2` errored: but it never raises a checksum error
        rename_i st2 e2 heq
        injection h with h1 h2
        injection h2 with h2
        rcases read2_error_shape st _ st2 e2 heq with rfl | rfl <;> simp at h2
      · rename_i st2 data2 heq
        obtain ⟨hleft, heof2, hexp2, hrun2, hname2, hcl2, _, _⟩ :=
          read2_ok_shape st _ st2 data2 heq
        by_cases hle : st2.left - ((data2.take st2.left.toNat).length : Int) ≤ 0
        · rw [if_pos hle, updateCrc_some _ _ c (by simpa using hexp2.trans hc)] at h
          split at h
          · rename_i stx ex hfire
            split at hfire
            · rename_i hcond2
              injection hfire with f1 f2
              injection h with h1 h2
              rw [← h1, ← f1]
              exact ⟨rfl, Or.inr (by simpa using hle), by simpa using hcond2.2⟩
            · injection hfire with f1 f2
              simp at f2
          · rename_i stx u hfire
            injection h with h1 h2
            simp at h2
        · rw [if_neg hle, updateCrc_some _ _ c (by simpa using hexp2.trans hc)] at h
          split at h
          · rename_i stx ex hfire
            split at hfire
            · rename_i hcond2
              injection hfire with f1 f2
              injection h with h1 h2
              rw [← h1, ← f1]
              refine ⟨by simpa using hcond2.1, Or.inl ?_, by simpa using hcond2.2⟩
              have := hcond2.1
              simp only [decide_eq_true_eq] at this
              simpa using this
            · injection hfire with f1 f2
              simp at f2
          · rename_i stx u hfire
            injection h with h1 h2
            simp at h2
  · intro data h heof heof' 
    simp only [read1] at h
    split at h
    · injection h with h1 h2
      rw [← h1] at heof'
      rw [heof] at heof'
      simp at heof'
    · split at h
      · simp at h
      · rename_i st2 data2 heq
        obtain ⟨hleft, heof2, hexp2, hrun2, hname2, hcl2, _, _⟩ :=
          read2_ok_shape st _ st2 data2 heq
        by_cases hle : st2.left - ((data2.take st2.left.toNat).length : Int) ≤ 0
        · rw [if_pos hle, updateCrc_some _ _ c (by simpa using hexp2.trans hc)] at h
          split at h
          · rename_i stx ex hfire
            injection h with h1 h2
            simp at h2
          · rename_i stx u hfire
            split at hfire
            · injection hfire with f1 f2
              simp at f2
            · rename_i hnofire
              injection hfire with f1 f2
              injection h with h1 h2
              rw [← h1, ← f1] at heof' ⊢
              by_contra hne
              exact hnofire ⟨by simpa using heof', by simpa using hne⟩
        · rw [if_neg hle, updateCrc_some _ _ c (by simpa using hexp2.trans hc)] at h
          split at h
          · rename_i stx ex hfire
            injection h with h1 h2
            simp at h2
          · rename_i stx u hfire
            split at hfire
            · injection hfire with f1 f2
              simp at f2
            · rename_i hnofire
              injection hfire with f1 f2
              injection h with h1 h2
              rw [← h1, ← f1] at heof' ⊢
              by_contra hne
              exact hnofire ⟨by simpa using heof', by simpa using hne⟩

theorem crc_checked_only_at_eof_witness :
    c3st.eof = false ∧ c3res.1.eof = true ∧
      (c3res.1.compress_left ≤ 0 ∨ c3res.1.left ≤ 0) ∧ c3res.1.running_crc ≠ 0 :=
  (crc_checked_only_at_eof c3st c3res.1 1 0 rfl).1
    (.badZipFile (.badCrcFor c3st.name)) rfl rfl


/-- `_SharedFile.read` can only fail with `OSError` (from the embedded seek on
a negative recorded position). -/
theorem sfRead_error_osError (s : SharedFile) (n : Int) (s' : SharedFile)
    (e : ZErr) (h : sfRead s n = (s', .error e)) : e = .osError := by
  simp only [sfRead] at h
  split at h
  · injection h with h1 h2
    injection h2 with h2
    exact h2.symm
  · simp at h

/-- `_SharedFile.seek` can only fail with `OSError` (a negative target). -/
theorem sfSeek_error_osError (s : SharedFile) (offset : Int) (whence : Nat)
    (s' : SharedFile) (e : ZErr) (h : sfSeek s offset whence = (s', .error e)) :
    e = .osError := by
  simp only [sfSeek] at h
  repeat' split at h
  all_goals
    first
      | (injection h with h1 h2
         injection h2 with h2
         exact h2.symm)
      | simp at h

/-- `ZipFile._fpclose` can only fail with `AssertionError` (reference count
not positive). -/
theorem fpclose_error_shape (st st' : ZipFileSt) (e : ZErr)
    (h : fpclose st = (st', .error e)) : e = .assertionError := by
  simp only [fpclose] at h
  split at h
  · simp at h
  · injection h with h1 h2
    injection h2 with h2
    exact h2.symm


/-- **C2, counterexample to the claim as stated**: the overlap condition is
*not* sufficient for the zip-bomb failure — an earlier check can preempt it.
Opening `c2arch`'s only entry satisfies the overlap condition (its computed
`end_offset` is `0`, while the position past the local header's name and
extra bytes is `31` and `compress_size` is `5`), yet `open` fails with the
strong-encryption `NotImplementedError` raised by the flag-bit-6 check that
runs first. -/
theorem open_overlap_counterexample :
    (zopen c2arch [97]).2 =
      .error (.notImplementedError "strong encryption (flag bit 6)") ∧
    c2zinfo.end_offset = some 0 ∧
    ((30 : Int) + 1) + (c2zinfo.compress_size : Int) > 0 := by
  exact ⟨rfl, rfl, by decide⟩


/-- **C2 (amended)**: the "overlapped entries (possible zip bomb)" failure is
exactly the guard closing the local-header validation of `open`'s `try`
block: (i) any run of that block failing with this error names the entry's
original filename, has both flag-bit checks passing, and has a computed
`end_offset` strictly exceeded by the handle's position plus
`compress_size`; (ii) no run whose final position plus `compress_size` stays
within the recorded `end_offset` fails with this error; (iii) `open` itself
surfaces this error exactly when the `try` block produces it; and (iv) when
the local header parses, both flag checks pass, the decoded header filename
matches the directory one, and the position past the header's name and extra
bytes plus `compress_size` exceeds the recorded `end_offset`, the block does
fail with this error at that position. -/
theorem open_overlap_guard :
    (∀ zef0 zinfo zef nm,
      openInner zef0 zinfo = (zef, .error (.badZipFile (.overlappedEntries nm))) →
      nm = zinfo.orig_filename ∧ zinfo.flag_bits &&& 0x20 = 0 ∧
        zinfo.flag_bits &&& 0x40 = 0 ∧
        ∃ eo, zinfo.end_offset = some eo ∧
          sfTell zef + (zinfo.compress_size : Int) > eo) ∧
    (∀ zef0 zinfo zef eo,
      zinfo.end_offset = some eo →
      sfTell zef + (zinfo.compress_size : Int) ≤ eo →
      openInner zef0 zinfo ≠
        (zef, .error (.badZipFile (.overlappedEntries zinfo.orig_filename)))) ∧
    (∀ st name st' nm,
      zopen st name = (st', .error (.badZipFile (.overlappedEntries nm))) →
      ∃ zinfo zef,
        nameToInfoGet st.filelist name = some zinfo ∧
        openInner { file := st.file, realPos := st.fpRealPos,
                    pos := zinfo.header_offset } zinfo =
          (zef, .error (.badZipFile (.overlappedEntries nm)))) ∧
    (∀ zef0 zinfo zef1 zef2 zef3 fheader fname p eo,
      sfRead zef0 30 = (zef1, .ok fheader) →
      fheader.length = 30 →
      fheader.take 4 = sigFileHeader →
      sfRead zef1 (fld fheader 26 2) = (zef2, .ok fname) →
      (if fld fheader 28 2 ≠ 0 then sfSeek zef2 (fld fheader 28 2) 1
        else (zef2, .ok zef2.pos)) = (zef3, .ok p) →
      zinfo.flag_bits &&& 0x20 = 0 →
      zinfo.flag_bits &&& 0x40 = 0 →
      (if fld fheader 6 2 &&& 0x800 ≠ 0 then utf8Decode fname
        else some (cp437Decode fname)) = some zinfo.orig_filename →
      zinfo.end_offset = some eo →
      sfTell zef3 + (zinfo.compress_size : Int) > eo →
      openInner zef0 zinfo =
        (zef3, .error (.badZipFile (.overlappedEntries zinfo.orig_filename)))) := by
  have hA : ∀ zef0 zinfo zef nm,
      openInner zef0 zinfo = (zef, .error (.badZipFile (.overlappedEntries nm))) →
      nm = zinfo.orig_filename ∧ zinfo.flag_bits &&& 0x20 = 0 ∧
        zinfo.flag_bits &&& 0x40 = 0 ∧
        ∃ eo, zinfo.end_offset = some eo ∧
          sfTell zef + (zinfo.compress_size : Int) > eo := by
    intro zef0 zinfo zef nm h
    simp only [openInner] at h
    split at h
    · rename_i zefe e heq
      injection h with h1 h2
      injection h2 with h2
      rw [sfRead_error_osError _ _ _ _ heq] at h2
      simp at h2
    · rename_i zef1 fheader heq1
      split at h
      · simp at h
      · split at h
        · simp at h
        · split at h
          · rename_i zefe e heq2
            injection h with h1 h2
            injection h2 with h2
            rw [sfRead_error_osError _ _ _ _ heq2] at h2
            simp at h2
          · rename_i zef2 fname heq2
            split at h
            · rename_i zefe e heq3
              injection h with h1 h2
              injection h2 with h2
              split at heq3
              · rw [sfSeek_error_osError _ _ _ _ _ heq3] at h2
                simp at h2
              · simp at heq3
            · rename_i zef3 pp heq3
              split at h
              · simp at h
              · split at h
                · simp at h
                · rename_i hf5 hf6
                  split at h
                  · simp at h
                  · rename_i fname_str hdec
                    split at h
                    · simp at h
                    · rename_i hname
                      split at h
                      · rename_i hcond
                        injection h with h1 h2
                        injection h2 with h2
                        injection h2 with h2
                        injection h2 with h2
                        refine ⟨h2.symm, by omega, by omega, ?_⟩
                        cases heo : zinfo.end_offset with
                        | none => rw [heo] at hcond; simp at hcond
                        | some eo =>
                          rw [heo] at hcond
                          simp only [decide_eq_true_eq] at hcond
                          exact ⟨eo, rfl, by rw [← h1]; exact hcond⟩
                      · split at h
                        · simp at h
                        · simp at h
  refine ⟨hA, ?_, ?_, ?_⟩
  · intro zef0 zinfo zef eo heo hle hcontra
    obtain ⟨hnm, _, _, eo2, heo2, hgt⟩ := hA zef0 zinfo zef _ hcontra
    rw [heo] at heo2
    injection heo2 with heq2
    omega
  · intro st name st' nm h
    simp only [zopen] at h
    split at h
    · simp at h
    · rename_i zinfo hget
      split at h
      · simp at h
      · split at h
        · simp at h
        · rename_i zef' e heq
          split at h
          · rename_i st3 u heq2
            injection h with h1 h2
            injection h2 with h2
            exact ⟨zinfo, zef', hget, by rw [heq, h2]⟩
          · rename_i st3 e2 heq2
            injection h with h1 h2
            injection h2 with h2
            rw [fpclose_error_shape _ _ _ heq2] at h2
            simp at h2
  · intro zef0 zinfo zef1 zef2 zef3 fheader fname p eo
      h1 hlen hsig h4 h5 hf5 hf6 hdec heo hgt
    simp only [openInner, h1, h4, h5, hdec, heo, hlen, hsig]
    simp [hf5, hf6, hgt]


theorem open_overlap_guard_witness :
    openInner c2zef c2zinfo2 =
      ({ file := localHeader 0 5 5 0 [97] [], fseekable := true,
         realPos := 31, pos := 31 },
        .error (.badZipFile (.overlappedEntries [97]))) :=
  open_overlap_guard.2.2.2 c2zef c2zinfo2
    { file := localHeader 0 5 5 0 [97] [], fseekable := true,
      realPos := 30, pos := 30 }
    { file := localHeader 0 5 5 0 [97] [], fseekable := true,
      realPos := 31, pos := 31 }
    { file := localHeader 0 5 5 0 [97] [], fseekable := true,
      realPos := 31, pos := 31 }
    ((localHeader 0 5 5 0 [97] []).take 30) [97] 31 0
    rfl rfl rfl rfl rfl rfl rfl rfl rfl (by decide)


set_option maxRecDepth 4000 in
/-- **C5, counterexample to the claim as stated**: a failed `open` does *not*
leave the archive able to serve subsequent `open` calls.  `c5bytes` is
accepted by `open_archive` and its entry `"a"` opens fine on the fresh
archive; but after the failing `open` of entry `"b"` (whose `header_offset`
points into the central directory, tripping the magic check), the release
path `_fpclose` has cleared `self.fp`, so the very same `open("a")` now dies
with `AttributeError`. -/
theorem open_failure_counterexample :
    openArchive c5bytes = .ok c5arch ∧
    (zopen c5arch [98]).2 = .error (.badZipFile .badMagicFileHeader) ∧
    (∃ ext, (zopen c5arch [97]).2 = .ok ext) ∧
    (zopen (zopen c5arch [98]).1 [97]).2 = .error .attributeError := by
  exact ⟨rfl, rfl, ⟨_, rfl⟩, rfl⟩

/-- **C5 (amended)**: the underlying stream is *never* actually closed, at
any reference count — `_fpclose` only clears `self.fp` and decrements the
count, and neither `open` nor `close` touches the real stream; moreover a
failed `open` (one that gets past the lookup and the handle construction)
restores the reference count but clears `self.fp`, after which every `open`
of an existing entry fails with `AttributeError` instead of being served. -/
theorem stream_never_closed :
    (∀ st, (fpclose st).1.streamClosed = st.streamClosed ∧
      (fpclose st).1.fp = false) ∧
    (∀ st name, (zopen st name).1.streamClosed = st.streamClosed) ∧
    (∀ st, (zipClose st).1.streamClosed = st.streamClosed) ∧
    (∀ st name st' e, 0 ≤ st.fileRefCnt →
      zopen st name = (st', .error e) →
      e ≠ .keyError → e ≠ .attributeError →
      st'.fileRefCnt = st.fileRefCnt ∧ st'.fp = false ∧
      ∀ name2 zinfo, nameToInfoGet st'.filelist name2 = some zinfo →
        (zopen st' name2).2 = .error .attributeError) := by
  have hfp : ∀ st, (fpclose st).1.streamClosed = st.streamClosed ∧
      (fpclose st).1.fp = false := by
    intro st
    simp only [fpclose]
    split <;> simp
  refine ⟨hfp, ?_, ?_, ?_⟩
  · intro st name
    simp only [zopen]
    split
    · rfl
    · split
      · rfl
      · split
        · rfl
        · rename_i zef' e heq
          split
          · rename_i st3 u heq2
            have := congrArg (fun x => x.1.streamClosed) heq2
            simpa using ((hfp _).1.symm.trans this).symm
          · rename_i st3 e2 heq2
            have := congrArg (fun x => x.1.streamClosed) heq2
            simpa using ((hfp _).1.symm.trans this).symm
  · intro st
    simp only [zipClose]
    split
    · rfl
    · exact (hfp st).1
  · intro st name st' e hcnt h hke hae
    simp only [zopen] at h
    split at h
    · injection h with h1 h2
      injection h2 with h2
      exact absurd h2.symm hke
    · rename_i zinfo hget
      split at h
      · injection h with h1 h2
        injection h2 with h2
        exact absurd h2.symm hae
      · rename_i hfp2
        split at h
        · simp at h
        · rename_i zef' e0 heq
          split at h
          · rename_i st3 u heq2
            injection h with h1 h2
            simp only [fpclose] at heq2
            split at heq2
            · injection heq2 with q1 q2
              constructor
              · rw [← h1, ← q1]
                simp
              constructor
              · rw [← h1, ← q1]
              · intro name2 zinfo2 hget2
                simp only [zopen, hget2]
                have : st'.fp = false := by rw [← h1, ← q1]
                rw [this]
                simp
            · rename_i hbad
              exact absurd (by omega) hbad
          · rename_i st3 e2 heq2
            simp only [fpclose] at heq2
            split at heq2
            · simp at heq2
            · rename_i hbad
              exact absurd (by omega) hbad


set_option maxRecDepth 4000 in
theorem stream_never_closed_witness :
    (zopen c5arch [98]).1.fileRefCnt = c5arch.fileRefCnt ∧
    (zopen c5arch [98]).1.fp = false ∧
    (zopen (zopen c5arch [98]).1 [97]).2 = .error .attributeError := by
  obtain ⟨h1, h2, h3⟩ := stream_never_closed.2.2.2 c5arch [98]
    (zopen c5arch [98]).1 (.badZipFile .badMagicFileHeader)
    (by decide) rfl (by decide) (by decide)
  exact ⟨h1, h2, h3 [97] c5ainfo rfl⟩


set_option maxRecDepth 4000 in
/-- **C7, counterexample to the claim as stated**: `seek(k); tell()` need
*not* return `k` even for a seekable stream and `0 ≤ k ≤ file_size`.  On
`c7bytes`'s entry (declared `file_size = 3`, stored data one byte) a
`seek(3)` fast-forwards without touching the data, but a following `seek(2)`
takes the rewind-and-replay case, and the replay obtains only the single
byte that actually exists: the discard loop still retires the full requested
count, and the returned position — `tell()` — is `1`, not `2`. -/
theorem seek_then_tell_counterexample :
    openArchive c7bytes = .ok c7arch ∧
    (zopen c7arch [97]).2 = .ok c7ext ∧
    (zseek c7ext 3 0).2 = .ok 3 ∧
    (zseek c7ext 3 0).1.seekable = true ∧
    (zseek c7ext 3 0).1.closed = false ∧
    (zseek c7ext 3 0).1.orig_file_size = 3 ∧
    (zseek (zseek c7ext 3 0).1 2 0).2 = .ok 1 := by
  exact ⟨rfl, rfl, rfl, rfl, rfl, rfl, rfl⟩


/-- `_read2` never touches the read buffer, the buffer offset, the recorded
uncompressed size, or the closed flag. -/
theorem read2_passive (st : ZipExtSt) (n : Int) (st2 : ZipExtSt)
    (data2 : List Nat) (h : read2 st n = (st2, .ok data2)) :
    st2.readbuffer = st.readbuffer ∧ st2.offset = st.offset ∧
    st2.orig_file_size = st.orig_file_size ∧ st2.closed = st.closed := by
  simp only [read2] at h
  split at h
  · injection h with h1 h2
    subst h1
    exact ⟨rfl, rfl, rfl, rfl⟩
  · split at h
    · simp at h
    · split at h
      · simp at h
      · injection h with h1 h2
        rw [← h1]
        exact ⟨rfl, rfl, rfl, rfl⟩

/-- `_update_crc` can only change the running CRC. -/
theorem updateCrc_fields (z : ZipExtSt) (x : List Nat) :
    (updateCrc z x).1.readbuffer = z.readbuffer ∧
    (updateCrc z x).1.offset = z.offset ∧
    (updateCrc z x).1.orig_file_size = z.orig_file_size ∧
    (updateCrc z x).1.closed = z.closed ∧
    (updateCrc z x).1.left = z.left := by
  simp only [updateCrc]
  split
  · exact ⟨rfl, rfl, rfl, rfl, rfl⟩
  · split <;> exact ⟨rfl, rfl, rfl, rfl, rfl⟩

/-- A successful `_read1` leaves the buffer machinery and the recorded sizes
alone and debits `_left` by exactly the number of bytes it returns. -/
theorem read1_passive (st : ZipExtSt) (n : Int) (st' : ZipExtSt)
    (data : List Nat) (h : read1 st n = (st', .ok data)) :
    st'.readbuffer = st.readbuffer ∧ st'.offset = st.offset ∧
    st'.orig_file_size = st.orig_file_size ∧ st'.closed = st.closed ∧
    st'.left = st.left - data.length := by
  simp only [read1] at h
  split at h
  · injection h with h1 h2
    injection h2 with h2
    subst h1
    refine ⟨rfl, rfl, rfl, rfl, by simp [← h2]⟩
  · split at h
    · simp at h
    · rename_i st2 data2 heq
      obtain ⟨hrb2, hoff2, hofs2, hcl2⟩ := read2_passive st _ st2 data2 heq
      have hleft2 : st2.left = st.left :=
        (read2_ok_shape st _ st2 data2 heq).1
      by_cases hle : st2.left - ((data2.take st2.left.toNat).length : Int) ≤ 0
      · rw [if_pos hle] at h
        split at h
        · simp at h
        · rename_i stx u hequ
          injection h with h1 h2
          injection h2 with h2
          subst h2
          have hx := congrArg Prod.fst hequ
          dsimp only at hx
          rw [← h1, ← hx]
          refine ⟨?_, ?_, ?_, ?_, ?_⟩
          · rw [(updateCrc_fields _ _).1]
            simpa using hrb2
          · rw [(updateCrc_fields _ _).2.1]
            simpa using hoff2
          · rw [(updateCrc_fields _ _).2.2.1]
            simpa using hofs2
          · rw [(updateCrc_fields _ _).2.2.2.1]
            simpa using hcl2
          · rw [(updateCrc_fields _ _).2.2.2.2]
            simpa using hleft2
      · rw [if_neg hle] at h
        split at h
        · simp at h
        · rename_i stx u hequ
          injection h with h1 h2
          injection h2 with h2
          subst h2
          have hx := congrArg Prod.fst hequ
          dsimp only at hx
          rw [← h1, ← hx]
          refine ⟨?_, ?_, ?_, ?_, ?_⟩
          · rw [(updateCrc_fields _ _).1]
            simpa using hrb2
          · rw [(updateCrc_fields _ _).2.1]
            simpa using hoff2
          · rw [(updateCrc_fields _ _).2.2.1]
            simpa using hofs2
          · rw [(updateCrc_fields _ _).2.2.2.1]
            simpa using hcl2
          · rw [(updateCrc_fields _ _).2.2.2.2]
            simpa using hleft2


/-- The chunk loop of `ZipExtFile.read` with a nonnegative residual count:
entered with an empty buffer, it appends some `extra` bytes to its
accumulator, advances the `tell` position by exactly `extra.length`, never
delivers more than asked, and leaves the buffer offset within the buffer. -/
theorem readLoop_tell (fuel : Nat) :
    ∀ (st : ZipExtSt) (n : Nat) (buf : List Nat) (st' : ZipExtSt)
      (out : List Nat),
    st.readbuffer = [] → st.offset = 0 →
    readLoop fuel st n buf = (st', .ok out) →
    ∃ extra, out = buf ++ extra ∧
      tellVal st' = tellVal st + extra.length ∧ extra.length ≤ n ∧
      st'.offset ≤ st'.readbuffer.length := by
  induction fuel with
  | zero =>
    intro st n buf st' out hrb hoff h
    simp only [readLoop] at h
    injection h with h1 h2
    injection h2 with h2
    subst h1
    subst h2
    exact ⟨[], by simp, by simp, Nat.zero_le n, by simp [hrb, hoff]⟩
  | succ fuel ih =>
    intro st n buf st' out hrb hoff h
    simp only [readLoop] at h
    split at h
    · injection h with h1 h2
      injection h2 with h2
      subst h1
      subst h2
      exact ⟨[], by simp, by simp, Nat.zero_le n, by simp [hrb, hoff]⟩
    · split at h
      · simp at h
      · rename_i st1 data heq
        obtain ⟨hrb1, hoff1, hofs1, hcl1, hleft1⟩ :=
          read1_passive st _ st1 data heq
        split at h
        · rename_i hlt
          injection h with h1 h2
          injection h2 with h2
          refine ⟨data.take n, h2.symm, ?_, ?_, ?_⟩
          · rw [← h1]
            simp only [tellVal, List.length_take, List.length_nil, hrb1,
              hoff1, hofs1, hleft1, hrb, hoff]
            omega
          · simp only [List.length_take]
            exact Nat.min_le_left _ _
          · rw [← h1]
            simpa using Nat.le_of_lt hlt
        · split at h
          · rename_i hdl
            injection h with h1 h2
            injection h2 with h2
            subst h1
            subst h2
            refine ⟨[], by simp, ?_, Nat.zero_le n, ?_⟩
            · simp only [tellVal, hrb1, hoff1, hofs1, hleft1, hdl,
                List.length_nil]
              omega
            · simp [hoff1, hrb1, hoff, hrb]
          · rename_i hnlt hdl
            obtain ⟨extra, hout, htell, hlen, hoffle⟩ :=
              ih st1 (n - data.length) (buf ++ data) st' out
                (hrb1.trans hrb) (hoff1.trans hoff) h
            refine ⟨data ++ extra, by rw [hout]; simp, ?_, ?_, hoffle⟩
            · have ht1 : tellVal st1 = tellVal st + data.length := by
                simp only [tellVal, hrb1, hoff1, hofs1, hleft1]
                push_cast
                ring
              rw [htell, ht1]
              simp only [List.length_append]
              push_cast
              omega
            · simp only [List.length_append]
              omega


/-- `ZipExtFile.read` with a nonnegative count advances the `tell` position
by exactly the number of bytes returned, never returns more than asked, and
leaves the buffer offset within the buffer. -/
theorem zread_tell (st : ZipExtSt) (n : Int) (st' : ZipExtSt)
    (out : List Nat) (hn : 0 ≤ n) (hoff : st.offset ≤ st.readbuffer.length)
    (h : zread st n = (st', .ok out)) :
    tellVal st' = tellVal st + out.length ∧ (out.length : Int) ≤ n ∧
    st'.offset ≤ st'.readbuffer.length := by
  simp only [zread] at h
  split at h
  · simp at h
  · split at h
    · rename_i hneg
      omega
    · split at h
      · rename_i hendi
        injection h with h1 h2
        injection h2 with h2
        refine ⟨?_, ?_, ?_⟩
        · rw [← h1, ← h2]
          simp only [tellVal, List.length_take, List.length_drop]
          omega
        · rw [← h2]
          simp only [List.length_take, List.length_drop]
          omega
        · rw [← h1]
          simpa using Nat.le_of_lt hendi
      · rename_i hendi
        obtain ⟨extra, hout, htell, hlen, hoffle⟩ :=
          readLoop_tell _ _ _ _ _ _ rfl rfl h
        refine ⟨?_, ?_, hoffle⟩
        · rw [htell, hout]
          simp only [tellVal, List.length_append, List.length_drop,
            List.length_nil]
          push_cast
          omega
        · rw [hout]
          simp only [List.length_append, List.length_drop]
          omega


/-- The read-and-discard loop of `ZipExtFile.seek` can advance the `tell`
position by at most `read_offset` (it retires the *requested* counts), and
never moves it backwards. -/
theorem seekLoop_tell (fuel : Nat) :
    ∀ (st : ZipExtSt) (ro : Int) (st2 : ZipExtSt),
    0 ≤ ro → st.offset ≤ st.readbuffer.length →
    seekLoop fuel st ro = (st2, .ok ()) →
    tellVal st ≤ tellVal st2 ∧ tellVal st2 ≤ tellVal st + ro := by
  induction fuel with
  | zero =>
    intro st ro st2 hro hoff h
    simp only [seekLoop] at h
    injection h with h1 h2
    subst h1
    omega
  | succ fuel ih =>
    intro st ro st2 hro hoff h
    simp only [seekLoop] at h
    split at h
    · rename_i hpos
      split at h
      · simp at h
      · rename_i stx out heq
        have hz := zread_tell st (min (1 <<< 24 : Int) ro) stx out
          (le_min (by norm_num) (le_of_lt hpos)) hoff heq
        have hrec := ih stx (ro - min (1 <<< 24 : Int) ro) st2
          (by omega) hz.2.2 h
        have hml : min (1 <<< 24 : Int) ro ≤ ro := min_le_right _ _
        omega
    · injection h with h1 h2
      subst h1
      omega


/-- The clamped seek target is never negative. -/
theorem clampPos_nonneg (st : ZipExtSt) (p : Int) : 0 ≤ clampPos st p := by
  simp only [clampPos]
  split <;> omega

/-- An out-of-range `whence` is rejected up front. -/
theorem zseek_bad_whence (st : ZipExtSt) (offset : Int) (whence : Nat)
    (hcl : st.closed = false) (hsk : st.seekable = true) (h3 : 3 ≤ whence) :
    zseek st offset whence =
      (st, .error (.valueError "whence must be 0, 1 or 2")) := by
  rcases whence with _ | _ | _ | w
  · omega
  · omega
  · omega
  · simp [zseek, hcl, hsk]

/-- A successful `seek` always returns the final state's `tell` position. -/
theorem zseek_ok_tell (st : ZipExtSt) (offset : Int) (whence : Nat)
    (st' : ZipExtSt) (r : Int) (h : zseek st offset whence = (st', .ok r)) :
    r = tellVal st' := by
  simp only [zseek] at h
  split at h
  · simp at h
  · split at h
    · simp at h
    · split at h
      · simp at h
      · rename_i np0 heqw
        repeat' split at h
        all_goals injection h with h1 h2
        all_goals
          first
            | (injection h2 with h2
               rw [← h1, ← h2])
            | injection h2



/-- A successful seek whose target is at or past the current position, or falls inside the read buffer, lands exactly on the clamped target. -/
theorem zseek_ok_exact (st : ZipExtSt) (offset : Int) (whence : Nat)
    (st' : ZipExtSt) (r np : Int)
    (h : zseek st offset whence = (st', .ok r))
    (htar : seekTarget st offset whence = some np)
    (hcase : tellVal st ≤ clampPos st np ∨
      (0 ≤ clampPos st np - tellVal st + st.offset ∧
        clampPos st np - tellVal st + (st.offset : Int) <
          st.readbuffer.length)) :
    r = clampPos st np := by
  rcases whence with _ | _ | _ | w
  ·
    simp only [seekTarget] at htar
    injection htar with htar
    simp only [zseek] at h
    rw [htar] at h
    rw [show (if (if np > st.orig_file_size then st.orig_file_size else np) < 0
              then (0 : Int)
              else if np > st.orig_file_size then st.orig_file_size else np) =
            clampPos st np from rfl] at h
    have hNP0 : (0 : Int) ≤ clampPos st np := clampPos_nonneg st np
    generalize hgen : clampPos st np = NP at h hNP0 hcase ⊢
    split at h
    · injection h with h1 h2
      injection h2
    · split at h
      · injection h with h1 h2
        injection h2
      ·
        split at h
        · rename_i hbufpos
          injection h with h1 h2
          injection h2 with h2
          rw [← h2]
          simp only [tellVal] at hbufpos ⊢
          omega
        · rename_i hbufneg
          split at h
          · rename_i hro
            split at h
            · injection h with h1 h2
              injection h2
            · injection h with h1 h2
              injection h2 with h2
              rw [← h2]
              simp only [tellVal, List.length_nil] at hro ⊢
              omega
          · rename_i hronot
            split at h
            · rename_i hro2
              exfalso
              rcases hcase with hc1 | hc2
              · omega
              · rcases hc2 with ⟨hca, hcb⟩
                exact hbufneg ⟨by omega, by omega⟩
            · rename_i hro2not
              injection h with h1 h2
              injection h2 with h2
              rw [← h2]
              omega
  ·
    simp only [seekTarget] at htar
    injection htar with htar
    simp only [zseek] at h
    rw [htar] at h
    rw [show (if (if np > st.orig_file_size then st.orig_file_size else np) < 0
              then (0 : Int)
              else if np > st.orig_file_size then st.orig_file_size else np) =
            clampPos st np from rfl] at h
    have hNP0 : (0 : Int) ≤ clampPos st np := clampPos_nonneg st np
    generalize hgen : clampPos st np = NP at h hNP0 hcase ⊢
    split at h
    · injection h with h1 h2
      injection h2
    · split at h
      · injection h with h1 h2
        injection h2
      ·
        split at h
        · rename_i hbufpos
          injection h with h1 h2
          injection h2 with h2
          rw [← h2]
          simp only [tellVal] at hbufpos ⊢
          omega
        · rename_i hbufneg
          split at h
          · rename_i hro
            split at h
            · injection h with h1 h2
              injection h2
            · injection h with h1 h2
              injection h2 with h2
              rw [← h2]
              simp only [tellVal, List.length_nil] at hro ⊢
              omega
          · rename_i hronot
            split at h
            · rename_i hro2
              exfalso
              rcases hcase with hc1 | hc2
              · omega
              · rcases hc2 with ⟨hca, hcb⟩
                exact hbufneg ⟨by omega, by omega⟩
            · rename_i hro2not
              injection h with h1 h2
              injection h2 with h2
              rw [← h2]
              omega
  ·
    simp only [seekTarget] at htar
    injection htar with htar
    simp only [zseek] at h
    rw [htar] at h
    rw [show (if (if np > st.orig_file_size then st.orig_file_size else np) < 0
              then (0 : Int)
              else if np > st.orig_file_size then st.orig_file_size else np) =
            clampPos st np from rfl] at h
    have hNP0 : (0 : Int) ≤ clampPos st np := clampPos_nonneg st np
    generalize hgen : clampPos st np = NP at h hNP0 hcase ⊢
    split at h
    · injection h with h1 h2
      injection h2
    · split at h
      · injection h with h1 h2
        injection h2
      ·
        split at h
        · rename_i hbufpos
          injection h with h1 h2
          injection h2 with h2
          rw [← h2]
          simp only [tellVal] at hbufpos ⊢
          omega
        · rename_i hbufneg
          split at h
          · rename_i hro
            split at h
            · injection h with h1 h2
              injection h2
            · injection h with h1 h2
              injection h2 with h2
              rw [← h2]
              simp only [tellVal, List.length_nil] at hro ⊢
              omega
          · rename_i hronot
            split at h
            · rename_i hro2
              exfalso
              rcases hcase with hc1 | hc2
              · omega
              · rcases hc2 with ⟨hca, hcb⟩
                exact hbufneg ⟨by omega, by omega⟩
            · rename_i hro2not
              injection h with h1 h2
              injection h2 with h2
              rw [← h2]
              omega
  · simp [seekTarget] at htar

/-- Every successful seek lands between position 0 and the clamped target (the replay after a rewind may fall short). -/
theorem zseek_ok_bounds (st : ZipExtSt) (offset : Int) (whence : Nat)
    (st' : ZipExtSt) (r np : Int)
    (h : zseek st offset whence = (st', .ok r))
    (htar : seekTarget st offset whence = some np) :
    0 ≤ r ∧ r ≤ clampPos st np := by
  rcases whence with _ | _ | _ | w
  ·
    simp only [seekTarget] at htar
    injection htar with htar
    simp only [zseek] at h
    rw [htar] at h
    rw [show (if (if np > st.orig_file_size then st.orig_file_size else np) < 0
              then (0 : Int)
              else if np > st.orig_file_size then st.orig_file_size else np) =
            clampPos st np from rfl] at h
    have hNP0 : (0 : Int) ≤ clampPos st np := clampPos_nonneg st np
    generalize hgen : clampPos st np = NP at h hNP0 ⊢
    split at h
    · injection h with h1 h2
      injection h2
    · split at h
      · injection h with h1 h2
        injection h2
      ·
        split at h
        · rename_i hbufpos
          injection h with h1 h2
          injection h2 with h2
          have hr : r = NP := by
            rw [← h2]
            simp only [tellVal] at hbufpos ⊢
            omega
          omega
        · rename_i hbufneg
          split at h
          · rename_i hro
            split at h
            · injection h with h1 h2
              injection h2
            · injection h with h1 h2
              injection h2 with h2
              have hr : r = NP := by
                rw [← h2]
                simp only [tellVal, List.length_nil] at hro ⊢
                omega
              omega
          · rename_i hronot
            split at h
            · rename_i hro2
              split at h
              · injection h with h1 h2
                injection h2
              · rename_i f w2 heqs
                split at h
                · injection h with h1 h2
                  injection h2
                · rename_i stF u heqF
                  injection h with h1 h2
                  injection h2 with h2
                  have htl := seekLoop_tell (NP.toNat + 1) _ NP stF hNP0
                    (by simp) heqF
                  simp only [tellVal, List.length_nil] at htl h2 ⊢
                  omega
            · rename_i hro2not
              injection h with h1 h2
              injection h2 with h2
              have hr : r = NP := by
                rw [← h2]
                omega
              omega
  ·
    simp only [seekTarget] at htar
    injection htar with htar
    simp only [zseek] at h
    rw [htar] at h
    rw [show (if (if np > st.orig_file_size then st.orig_file_size else np) < 0
              then (0 : Int)
              else if np > st.orig_file_size then st.orig_file_size else np) =
            clampPos st np from rfl] at h
    have hNP0 : (0 : Int) ≤ clampPos st np := clampPos_nonneg st np
    generalize hgen : clampPos st np = NP at h hNP0 ⊢
    split at h
    · injection h with h1 h2
      injection h2
    · split at h
      · injection h with h1 h2
        injection h2
      ·
        split at h
        · rename_i hbufpos
          injection h with h1 h2
          injection h2 with h2
          have hr : r = NP := by
            rw [← h2]
            simp only [tellVal] at hbufpos ⊢
            omega
          omega
        · rename_i hbufneg
          split at h
          · rename_i hro
            split at h
            · injection h with h1 h2
              injection h2
            · injection h with h1 h2
              injection h2 with h2
              have hr : r = NP := by
                rw [← h2]
                simp only [tellVal, List.length_nil] at hro ⊢
                omega
              omega
          · rename_i hronot
            split at h
            · rename_i hro2
              split at h
              · injection h with h1 h2
                injection h2
              · rename_i f w2 heqs
                split at h
                · injection h with h1 h2
                  injection h2
                · rename_i stF u heqF
                  injection h with h1 h2
                  injection h2 with h2
                  have htl := seekLoop_tell (NP.toNat + 1) _ NP stF hNP0
                    (by simp) heqF
                  simp only [tellVal, List.length_nil] at htl h2 ⊢
                  omega
            · rename_i hro2not
              injection h with h1 h2
              injection h2 with h2
              have hr : r = NP := by
                rw [← h2]
                omega
              omega
  ·
    simp only [seekTarget] at htar
    injection htar with htar
    simp only [zseek] at h
    rw [htar] at h
    rw [show (if (if np > st.orig_file_size then st.orig_file_size else np) < 0
              then (0 : Int)
              else if np > st.orig_file_size then st.orig_file_size else np) =
            clampPos st np from rfl] at h
    have hNP0 : (0 : Int) ≤ clampPos st np := clampPos_nonneg st np
    generalize hgen : clampPos st np = NP at h hNP0 ⊢
    split at h
    · injection h with h1 h2
      injection h2
    · split at h
      · injection h with h1 h2
        injection h2
      ·
        split at h
        · rename_i hbufpos
          injection h with h1 h2
          injection h2 with h2
          have hr : r = NP := by
            rw [← h2]
            simp only [tellVal] at hbufpos ⊢
            omega
          omega
        · rename_i hbufneg
          split at h
          · rename_i hro
            split at h
            · injection h with h1 h2
              injection h2
            · injection h with h1 h2
              injection h2 with h2
              have hr : r = NP := by
                rw [← h2]
                simp only [tellVal, List.length_nil] at hro ⊢
                omega
              omega
          · rename_i hronot
            split at h
            · rename_i hro2
              split at h
              · injection h with h1 h2
                injection h2
              · rename_i f w2 heqs
                split at h
                · injection h with h1 h2
                  injection h2
                · rename_i stF u heqF
                  injection h with h1 h2
                  injection h2 with h2
                  have htl := seekLoop_tell (NP.toNat + 1) _ NP stF hNP0
                    (by simp) heqF
                  simp only [tellVal, List.length_nil] at htl h2 ⊢
                  omega
            · rename_i hro2not
              injection h with h1 h2
              injection h2 with h2
              have hr : r = NP := by
                rw [← h2]
                omega
              omega
  · simp [seekTarget] at htar


/-- **C7 (amended)**: `seek` computes the raw target from `offset`/`whence`
(rejecting any other `whence`), clamps it to `[0, orig_file_size]`, and
returns the stream's final `tell` position; that returned position equals
the clamped target whenever the move stays inside the read buffer or goes
forward (cases (a), (b) and the trivial case), but in the rewind-and-replay
case it is only guaranteed to land in `[0, target]` — the replay loop
retires requested counts, not delivered ones, so a stream that yields fewer
bytes than the metadata promises makes `seek(k); tell()` fall short of `k`. -/
theorem seek_clamps_position :
    (∀ st offset whence, st.closed = false → st.seekable = true →
      3 ≤ whence →
      zseek st offset whence =
        (st, .error (.valueError "whence must be 0, 1 or 2"))) ∧
    (∀ st offset whence st' r,
      zseek st offset whence = (st', .ok r) → r = tellVal st') ∧
    (∀ st offset whence st' r np,
      zseek st offset whence = (st', .ok r) →
      seekTarget st offset whence = some np →
      (tellVal st ≤ clampPos st np ∨
        (0 ≤ clampPos st np - tellVal st + st.offset ∧
          clampPos st np - tellVal st + (st.offset : Int) <
            st.readbuffer.length)) →
      r = clampPos st np) ∧
    (∀ st offset whence st' r np,
      zseek st offset whence = (st', .ok r) →
      seekTarget st offset whence = some np →
      0 ≤ r ∧ r ≤ clampPos st np) :=
  ⟨fun st o w hcl hsk h3 => zseek_bad_whence st o w hcl hsk h3,
    fun st o w st' r h => zseek_ok_tell st o w st' r h,
    fun st o w st' r np h ht hc => zseek_ok_exact st o w st' r np h ht hc,
    fun st o w st' r np h ht => zseek_ok_bounds st o w st' r np h ht⟩

set_option maxRecDepth 4000 in
theorem seek_clamps_position_witness :
    (3 : Int) = clampPos c7ext 3 :=
  seek_clamps_position.2.2.1 c7ext 3 0 (zseek c7ext 3 0).1 3 3 rfl rfl
    (Or.inl (by decide))

end FixZipfile
